import Mathlib

/-!
Verification of the nextcnc G-code interpretation and simulation core.

This file gives a shallow embedding, in Lean 4, of the core components of the
nextcnc CNC simulator (src/nextcnc): the legacy regex-based G-code parser
(core/parser.py), the AST-based modal interpreter (core/parser_new.py together
with core/ast_nodes.py), the 3-axis kinematics engine (core/kinematics.py),
the tri-dexel material-removal board (simulation/stock_model.py) and the AABB
collision broad phase (simulation/collision.py).

Python floats are modelled as exact rationals where the source performs only
field arithmetic and comparisons, and as real numbers where the source uses
transcendental functions (trigonometry in arc sampling and air-cut ring
sampling, square roots in the ball-endmill profile).  Mutable state is passed
explicitly: a method that mutates an object is embedded as a function from the
old record to the new record.
-/

/-- A 3-component coordinate vector, the embedding of the numpy arrays of
shape (3,) that the source passes around for positions and offsets. -/
structure V3 (α : Type) where
  x : α
  y : α
  z : α
  deriving DecidableEq, Repr

instance [Add α] : Add (V3 α) := ⟨fun a b => ⟨a.x + b.x, a.y + b.y, a.z + b.z⟩⟩

instance [Sub α] : Sub (V3 α) := ⟨fun a b => ⟨a.x - b.x, a.y - b.y, a.z - b.z⟩⟩

/-- Truncation toward zero, the embedding of the Python builtin int() applied
to a float (used for G-word numbers and grid index computation). -/
def ratTrunc (q : ℚ) : ℤ :=
  q.num / (q.den : ℤ)

/- ============================================================
   core/kinematics.py : work coordinate systems and axis limits
   ============================================================ -/

/-- AxisLimits from core/kinematics.py: one axis travel range. -/
structure AxisLimits where
  min : ℚ
  max : ℚ
  deriving DecidableEq

/-- A limit-violation message.  The source builds a formatted human-readable
string carrying the axis name, the actual value and the exceeded bound; the
embedding keeps that content structurally (below = true means the low bound
was exceeded). -/
structure LimitMsg where
  axis : String
  value : ℚ
  bound : ℚ
  below : Bool
  deriving DecidableEq

/-- AxisLimits.check: returns (ok, optional error message).  The source
returns the first violated bound only (value < min is tested first). -/
def AxisLimits.check (l : AxisLimits) (value : ℚ) (axis_name : String) :
    Bool × Option LimitMsg :=
  if value < l.min then (false, some ⟨axis_name, value, l.min, true⟩)
  else if l.max < value then (false, some ⟨axis_name, value, l.max, false⟩)
  else (true, none)

/-- MachineConfig from core/kinematics.py (axis limits and feed caps). -/
structure MachineConfig where
  name : String
  x_limits : AxisLimits
  y_limits : AxisLimits
  z_limits : AxisLimits
  max_rapid_feed : ℚ
  max_cutting_feed : ℚ
  deriving DecidableEq

/-- The default MachineConfig values of the source dataclass. -/
def MachineConfig.default : MachineConfig :=
  ⟨"Default 3-Axis Mill", ⟨-500, 500⟩, ⟨-300, 300⟩, ⟨-200, 100⟩, 10000, 5000⟩

/-- MachineConfig.check_axis_limits: checks X, Y, Z in order and collects the
error messages; returns (all_ok, errors). -/
def MachineConfig.check_axis_limits (c : MachineConfig) (x y z : ℚ) :
    Bool × List LimitMsg :=
  let checks : List (ℚ × AxisLimits × String) :=
    [(x, c.x_limits, "X"), (y, c.y_limits, "Y"), (z, c.z_limits, "Z")]
  let errors := checks.filterMap fun t => (t.2.1.check t.1 t.2.2).2
  (errors.isEmpty, errors)

/-- WorkCoordinateSystem from core/kinematics.py: six offsets (G54-G59) and
the active index. -/
structure WorkCoordinateSystem where
  offsets : Fin 6 → V3 ℚ
  active_wcs : Fin 6

def WorkCoordinateSystem.get_active_offset (w : WorkCoordinateSystem) : V3 ℚ :=
  w.offsets w.active_wcs

def WorkCoordinateSystem.work_to_machine (w : WorkCoordinateSystem)
    (work_pos : V3 ℚ) : V3 ℚ :=
  work_pos + w.get_active_offset

def WorkCoordinateSystem.machine_to_work (w : WorkCoordinateSystem)
    (machine_pos : V3 ℚ) : V3 ℚ :=
  machine_pos - w.get_active_offset

/-- MachineState from core/kinematics.py.  The modal_snapshot dict is not
modelled: move_to_work neither reads nor writes it. -/
structure MachineState where
  x : ℚ
  y : ℚ
  z : ℚ
  x_work : ℚ
  y_work : ℚ
  z_work : ℚ
  active_wcs : ℤ
  feed_rate : ℚ
  spindle_rpm : ℚ
  spindle_on : Bool
  tool_id : ℤ
  limits_ok : Bool
  limit_errors : List LimitMsg
  deriving DecidableEq

def MachineState.initial : MachineState :=
  ⟨0, 0, 0, 0, 0, 0, 0, 0, 0, false, 0, true, []⟩

/-- Kinematics3Axis from core/kinematics.py: config, WCS table and the
mutable current state. -/
structure Kinematics3Axis where
  config : MachineConfig
  wcs : WorkCoordinateSystem
  current_state : MachineState

/-- Kinematics3Axis.move_to_work: merges the provided work axes into the
stored work position (a missing axis is unchanged), converts to machine
coordinates via the active WCS offset, stores both positions, re-checks the
axis limits and records limits_ok plus the error list.  The motion is never
blocked: the out-of-range position is stored all the same. -/
def Kinematics3Axis.move_to_work (k : Kinematics3Axis)
    (x y z feed_rate : Option ℚ) : Kinematics3Axis :=
  let s0 := k.current_state
  let s1 : MachineState :=
    { s0 with
      x_work := x.getD s0.x_work
      y_work := y.getD s0.y_work
      z_work := z.getD s0.z_work
      feed_rate := feed_rate.getD s0.feed_rate }
  let work : V3 ℚ := ⟨s1.x_work, s1.y_work, s1.z_work⟩
  let m := k.wcs.work_to_machine work
  let checked := k.config.check_axis_limits m.x m.y m.z
  { k with
    current_state :=
      { s1 with
        x := m.x, y := m.y, z := m.z
        limits_ok := checked.1, limit_errors := checked.2 } }

/-- Number of axes whose machine coordinate violates its travel limits. -/
def MachineConfig.violatedAxes (c : MachineConfig) (x y z : ℚ) : ℕ :=
  ((c.check_axis_limits x y z).2).length

/- ============================================================
   Claim C6
   ============================================================ -/

theorem V3.add_def [Add α] (a b : V3 α) :
    a + b = ⟨a.x + b.x, a.y + b.y, a.z + b.z⟩ := rfl

theorem V3.sub_def [Sub α] (a b : V3 α) :
    a - b = ⟨a.x - b.x, a.y - b.y, a.z - b.z⟩ := rfl

/-- C6: for every position p and any offset table and active WCS index,
machine_to_work (work_to_machine p) = p, exactly (hence within any
floating-point epsilon). -/
theorem C6_wcs_inverse (w : WorkCoordinateSystem) (p : V3 ℚ) :
    w.machine_to_work (w.work_to_machine p) = p := by
  cases p
  simp [WorkCoordinateSystem.machine_to_work, WorkCoordinateSystem.work_to_machine,
    WorkCoordinateSystem.get_active_offset, V3.add_def, V3.sub_def]

/- ============================================================
   Claim C8
   ============================================================ -/

theorem filterMap_three {α β : Type} (f : α → Option β) (a b c : α) :
    [a, b, c].filterMap f = (f a).toList ++ (f b).toList ++ (f c).toList := by
  cases ha : f a <;> cases hb : f b <;> cases hc : f c <;>
    simp [List.filterMap_cons, ha, hb, hc]

/-- If at least one axis is violated, check_axis_limits reports not-ok. -/
theorem check_axis_limits_not_ok (c : MachineConfig) (x y z : ℚ)
    (h : 1 ≤ c.violatedAxes x y z) :
    (c.check_axis_limits x y z).1 = false := by
  have h1 : (c.check_axis_limits x y z).1 =
      ((c.check_axis_limits x y z).2).isEmpty := rfl
  rcases hl : (c.check_axis_limits x y z).2 with _ | ⟨e, es⟩
  · rw [MachineConfig.violatedAxes, hl] at h
    simp at h
  · rw [h1, hl]
    rfl

/-- C8: whenever the machine position that results from a move_to_work call
violates at least one axis limit, the stored work position is still updated to
the requested target and the stored machine position to its image under the
active WCS offset (the motion is not blocked), the returned state has
limits_ok = false, and the limit-error list is exactly the concatenation of
the per-axis check results in X, Y, Z order — one message per violated axis. -/
theorem C8_limit_violation (k : Kinematics3Axis) (x y z f : Option ℚ)
    (m : V3 ℚ)
    (hm : m = k.wcs.work_to_machine
      ⟨x.getD k.current_state.x_work, y.getD k.current_state.y_work,
       z.getD k.current_state.z_work⟩)
    (hviol : 1 ≤ k.config.violatedAxes m.x m.y m.z) :
    ((k.move_to_work x y z f).current_state.x_work
        = x.getD k.current_state.x_work) ∧
    ((k.move_to_work x y z f).current_state.y_work
        = y.getD k.current_state.y_work) ∧
    ((k.move_to_work x y z f).current_state.z_work
        = z.getD k.current_state.z_work) ∧
    (k.move_to_work x y z f).current_state.x = m.x ∧
    (k.move_to_work x y z f).current_state.y = m.y ∧
    (k.move_to_work x y z f).current_state.z = m.z ∧
    (k.move_to_work x y z f).current_state.limits_ok = false ∧
    (k.move_to_work x y z f).current_state.limit_errors
        = (k.config.x_limits.check m.x "X").2.toList
          ++ (k.config.y_limits.check m.y "Y").2.toList
          ++ (k.config.z_limits.check m.z "Z").2.toList ∧
    (k.move_to_work x y z f).current_state.limit_errors.length
        = k.config.violatedAxes m.x m.y m.z := by
  subst hm
  refine ⟨rfl, rfl, rfl, rfl, rfl, rfl, ?_, ?_, rfl⟩
  · exact check_axis_limits_not_ok k.config _ _ _ hviol
  · show (k.config.check_axis_limits _ _ _).2 = _
    rw [MachineConfig.check_axis_limits]
    exact filterMap_three _ _ _ _

/-- Witness for C8 at a concrete input: the default machine config, all
offsets zero, a request to move to work X = 600 (beyond the 500 limit). -/
theorem C8_limit_violation_witness :
    let k : Kinematics3Axis :=
      ⟨MachineConfig.default, ⟨fun _ => ⟨0, 0, 0⟩, 0⟩, MachineState.initial⟩
    let m : V3 ℚ := ⟨600, 0, 0⟩
    (k.move_to_work (some 600) none none none).current_state.limits_ok = false := by
  intro k m
  have hm : m = k.wcs.work_to_machine
      ⟨(some (600 : ℚ)).getD k.current_state.x_work,
       (Option.none).getD k.current_state.y_work,
       (Option.none).getD k.current_state.z_work⟩ := by
    show (⟨600, 0, 0⟩ : V3 ℚ) = ⟨600 + 0, 0 + 0, 0 + 0⟩
    simp
  have hviol : 1 ≤ k.config.violatedAxes m.x m.y m.z := by decide
  exact (C8_limit_violation k (some 600) none none none m hm hviol).2.2.2.2.2.2.1

/- ============================================================
   simulation/collision.py : AABB broad-phase collision detection
   ============================================================ -/

/-- BoundingBox from simulation/collision.py: an axis-aligned box. -/
structure BoundingBox where
  min_x : ℚ
  min_y : ℚ
  min_z : ℚ
  max_x : ℚ
  max_y : ℚ
  max_z : ℚ
  deriving DecidableEq

/-- BoundingBox.size: the box dimensions (max - min per axis). -/
def BoundingBox.size (b : BoundingBox) : V3 ℚ :=
  ⟨b.max_x - b.min_x, b.max_y - b.min_y, b.max_z - b.min_z⟩

/-- BoundingBox.center: the box midpoint. -/
def BoundingBox.center (b : BoundingBox) : V3 ℚ :=
  ⟨(b.min_x + b.max_x) / 2, (b.min_y + b.max_y) / 2, (b.min_z + b.max_z) / 2⟩

/-- BoundingBox.intersects: per-axis interval overlap on all three axes. -/
def BoundingBox.intersects (a other : BoundingBox) : Bool :=
  decide (a.min_x ≤ other.max_x ∧ a.max_x ≥ other.min_x ∧
          a.min_y ≤ other.max_y ∧ a.max_y ≥ other.min_y ∧
          a.min_z ≤ other.max_z ∧ a.max_z ≥ other.min_z)

/-- BoundingBox.expand_to_include.  The source mutates self; the embedding
returns the enlarged box. -/
def BoundingBox.expand_to_include (a other : BoundingBox) : BoundingBox :=
  ⟨min a.min_x other.min_x, min a.min_y other.min_y, min a.min_z other.min_z,
   max a.max_x other.max_x, max a.max_y other.max_y, max a.max_z other.max_z⟩

/-- CollisionType from simulation/collision.py. -/
inductive CollisionType where
  | TOOL_STOCK
  | TOOL_HOLDER_STOCK
  | TOOL_FIXTURE
  | SPINDLE_STOCK
  | AXIS_LIMIT
  deriving DecidableEq

/-- Collider from simulation/collision.py.  cid models Python object
identity: AABBTree.build aliases the first collider's bbox and enlarges it in
place, so after a build the same object can carry a different box; the claims
track colliders through that mutation by identity. -/
structure Collider where
  cid : ℕ
  name : String
  bbox : BoundingBox
  collision_type : CollisionType
  deriving DecidableEq

/-- Containment order on boxes: a lies inside b. -/
def insideBox (a b : BoundingBox) : Prop :=
  b.min_x ≤ a.min_x ∧ b.min_y ≤ a.min_y ∧ b.min_z ≤ a.min_z ∧
  a.max_x ≤ b.max_x ∧ a.max_y ≤ b.max_y ∧ a.max_z ≤ b.max_z

instance (a b : BoundingBox) : Decidable (insideBox a b) := by
  unfold insideBox
  infer_instance

/-- The first index of the maximum of size, as np.argmax computes it over
the 3-vector [size_x, size_y, size_z]. -/
def longestAxis (b : BoundingBox) : ℕ :=
  let s := b.size
  if s.y ≤ s.x ∧ s.z ≤ s.x then 0
  else if s.z ≤ s.y then 1
  else 2

/-- The sort key used by _build_node: the collider's box center along the
split axis. -/
def centerAxis (c : Collider) (axis : ℕ) : ℚ :=
  match axis with
  | 0 => c.bbox.center.x
  | 1 => c.bbox.center.y
  | _ => c.bbox.center.z

/-- A node of the AABB tree: the dict with keys bbox / colliders / children
built by _build_node. -/
inductive ATree where
  | node (bbox : BoundingBox) (colliders : List Collider) (children : List ATree)

def ATree.bboxOf : ATree → BoundingBox
  | .node b _ _ => b

/-- The split performed by _build_node: sort the colliders by box center
along the longest axis of the node box (Python sorted is a stable merge
sort), then cut at the median index len // 2. -/
def splitSorted (colliders : List Collider) (bbox : BoundingBox) :
    List Collider × List Collider :=
  let axis := longestAxis bbox
  let sorted_colliders :=
    colliders.mergeSort fun c d => decide (centerAxis c axis ≤ centerAxis d axis)
  let mid := sorted_colliders.length / 2
  (sorted_colliders.take mid, sorted_colliders.drop mid)

/-- The tightly fitted child box of _build_node: the first collider's box
(cloned) expanded to include every other collider's box; for an empty half
the source falls back to the parent box. -/
def fitBox (bbox : BoundingBox) : List Collider → BoundingBox
  | [] => bbox
  | c0 :: rest => rest.foldl (fun acc c => acc.expand_to_include c.bbox) c0.bbox

/-- AABBTree._build_node: at max depth or with at most two colliders, a leaf
holding the colliders; otherwise sort by center along the longest axis of the
node box, split at the median, fit a box around each half and recurse; a
child is appended only for a nonempty half. -/
def build_node (max_depth : ℕ) (colliders : List Collider)
    (bbox : BoundingBox) (depth : ℕ) : ATree :=
  if max_depth ≤ depth ∨ colliders.length ≤ 2 then
    ATree.node bbox colliders []
  else
    ATree.node bbox []
      ((if (splitSorted colliders bbox).1.isEmpty then []
        else [build_node max_depth (splitSorted colliders bbox).1
                (fitBox bbox (splitSorted colliders bbox).1) (depth + 1)]) ++
       (if (splitSorted colliders bbox).2.isEmpty then []
        else [build_node max_depth (splitSorted colliders bbox).2
                (fitBox bbox (splitSorted colliders bbox).2) (depth + 1)]))
termination_by max_depth - depth
decreasing_by
  all_goals omega

/-- AABBTree from simulation/collision.py (default max_depth = 4). -/
structure AABBTree where
  max_depth : ℕ
  root : Option ATree
  colliders : List Collider

/-- AABBTree.build.  The source sets global_bbox to colliders[0].bbox and
calls expand_to_include on it for every other collider; because
expand_to_include mutates in place and global_bbox aliases the first
collider's box, the first collider ends up carrying the global bounds.  The
embedding makes that explicit. -/
def AABBTree.build (t : AABBTree) (colliders : List Collider) : AABBTree :=
  match colliders with
  | [] => { t with colliders := [], root := none }
  | c0 :: rest =>
    let global_bbox :=
      rest.foldl (fun acc c => acc.expand_to_include c.bbox) c0.bbox
    let colliders2 := { c0 with bbox := global_bbox } :: rest
    { t with
      colliders := colliders2
      root := some (build_node t.max_depth colliders2 global_bbox 0) }

/-- AABBTree._query_node: prune a subtree whose box misses the query box;
otherwise collect the node's colliders and descend into every child. -/
def ATree.query_node : ATree → BoundingBox → List Collider
  | .node b cs ch, q =>
    if q.intersects b = false then []
    else cs ++ (ch.attach.map fun x => ATree.query_node x.1 q).flatten
decreasing_by
  have := List.sizeOf_lt_of_mem x.2
  simp only [ATree.node.sizeOf_spec]
  omega

/-- AABBTree.query_collisions. -/
def AABBTree.query_collisions (t : AABBTree) (moving_bbox : BoundingBox) :
    List Collider :=
  match t.root with
  | none => []
  | some n => n.query_node moving_bbox

/-- All colliders stored anywhere in a subtree. -/
def ATree.treeColls : ATree → List Collider
  | .node _ cs ch => cs ++ (ch.attach.map fun x => ATree.treeColls x.1).flatten
decreasing_by
  have := List.sizeOf_lt_of_mem x.2
  simp only [ATree.node.sizeOf_spec]
  omega

/-- Structural invariant of a well-built tree: every collider at a node fits
inside the node box and every child box fits inside its parent box. -/
inductive ATree.Sound : ATree → Prop where
  | mk (b : BoundingBox) (cs : List Collider) (ch : List ATree) :
      (∀ c ∈ cs, insideBox c.bbox b) →
      (∀ t ∈ ch, insideBox t.bboxOf b) →
      (∀ t ∈ ch, ATree.Sound t) →
      ATree.Sound (ATree.node b cs ch)

theorem insideBox_refl (a : BoundingBox) : insideBox a a := by
  unfold insideBox
  exact ⟨le_refl _, le_refl _, le_refl _, le_refl _, le_refl _, le_refl _⟩

theorem insideBox_trans {a b c : BoundingBox}
    (h1 : insideBox a b) (h2 : insideBox b c) : insideBox a c := by
  unfold insideBox at *
  obtain ⟨p1, p2, p3, p4, p5, p6⟩ := h1
  obtain ⟨q1, q2, q3, q4, q5, q6⟩ := h2
  exact ⟨le_trans q1 p1, le_trans q2 p2, le_trans q3 p3,
         le_trans p4 q4, le_trans p5 q5, le_trans p6 q6⟩

theorem insideBox_expand_left (a b : BoundingBox) :
    insideBox a (a.expand_to_include b) := by
  unfold insideBox BoundingBox.expand_to_include
  refine ⟨?_, ?_, ?_, ?_, ?_, ?_⟩ <;> simp

theorem insideBox_expand_right (a b : BoundingBox) :
    insideBox b (a.expand_to_include b) := by
  unfold insideBox BoundingBox.expand_to_include
  refine ⟨?_, ?_, ?_, ?_, ?_, ?_⟩ <;> simp

theorem expand_lub {a b u : BoundingBox}
    (ha : insideBox a u) (hb : insideBox b u) :
    insideBox (a.expand_to_include b) u := by
  unfold insideBox BoundingBox.expand_to_include at *
  obtain ⟨p1, p2, p3, p4, p5, p6⟩ := ha
  obtain ⟨q1, q2, q3, q4, q5, q6⟩ := hb
  refine ⟨?_, ?_, ?_, ?_, ?_, ?_⟩ <;> simp <;> constructor <;> assumption

/-- Growing a box can only help an intersection test. -/
theorem intersects_mono {a b q : BoundingBox} (hab : insideBox a b)
    (hq : q.intersects a = true) : q.intersects b = true := by
  unfold BoundingBox.intersects at *
  rw [decide_eq_true_iff] at *
  obtain ⟨p1, p2, p3, p4, p5, p6⟩ := hab
  obtain ⟨i1, i2, i3, i4, i5, i6⟩ := hq
  refine ⟨?_, ?_, ?_, ?_, ?_, ?_⟩ <;> dsimp only [ge_iff_le] at * <;> linarith

theorem intersects_comm (a b : BoundingBox) :
    a.intersects b = b.intersects a := by
  unfold BoundingBox.intersects
  simp only [decide_eq_decide, ge_iff_le]
  constructor
  · rintro ⟨p1, p2, p3, p4, p5, p6⟩
    exact ⟨p2, p1, p4, p3, p6, p5⟩
  · rintro ⟨p1, p2, p3, p4, p5, p6⟩
    exact ⟨p2, p1, p4, p3, p6, p5⟩

/-- Folding expand_to_include over a collider list only grows the box. -/
theorem foldl_expand_grows (l : List Collider) (z : BoundingBox) :
    insideBox z (l.foldl (fun acc c => acc.expand_to_include c.bbox) z) := by
  induction l generalizing z with
  | nil => exact insideBox_refl z
  | cons c rest ih =>
    exact insideBox_trans (insideBox_expand_left z c.bbox) (ih _)

/-- Every member of the list fits inside the fold of expand_to_include. -/
theorem foldl_expand_bounds (l : List Collider) (z : BoundingBox) :
    ∀ c ∈ l, insideBox c.bbox
      (l.foldl (fun acc a => acc.expand_to_include a.bbox) z) := by
  induction l generalizing z with
  | nil => intro c hc; cases hc
  | cons c0 rest ih =>
    intro c hc
    rcases List.mem_cons.mp hc with h | h
    · subst h
      exact insideBox_trans (insideBox_expand_right z c.bbox)
        (foldl_expand_grows rest _)
    · exact ih _ c h

/-- The fold of expand_to_include stays below any common upper bound. -/
theorem foldl_expand_lub (l : List Collider) (z u : BoundingBox)
    (hz : insideBox z u) (hl : ∀ c ∈ l, insideBox c.bbox u) :
    insideBox (l.foldl (fun acc a => acc.expand_to_include a.bbox) z) u := by
  induction l generalizing z with
  | nil => exact hz
  | cons c0 rest ih =>
    exact ih _ (expand_lub hz (hl c0 (List.mem_cons_self _ _)))
      (fun c hc => hl c (List.mem_cons_of_mem _ hc))

/-- Everything in a sound subtree fits inside the subtree's root box. -/
theorem Sound_treeColls_inside {t : ATree} (hs : ATree.Sound t) :
    ∀ c ∈ t.treeColls, insideBox c.bbox t.bboxOf := by
  induction hs with
  | mk b cs ch hcs hch hsch ih =>
    intro c hc
    rw [ATree.treeColls] at hc
    rcases List.mem_append.mp hc with h | h
    · exact hcs c h
    · rw [List.mem_flatten] at h
      obtain ⟨l, hl, hcl⟩ := h
      rw [List.mem_map] at hl
      obtain ⟨x, _, hxl⟩ := hl
      subst hxl
      exact insideBox_trans (ih x.1 x.2 c hcl) (hch x.1 x.2)

/-- Query completeness over a sound subtree: a stored collider whose box
meets the query box is returned. -/
theorem Sound_query_complete {t : ATree} (hs : ATree.Sound t)
    (q : BoundingBox) :
    ∀ c ∈ t.treeColls, q.intersects c.bbox = true → c ∈ t.query_node q := by
  induction hs with
  | mk b cs ch hcs hch hsch ih =>
    intro c hc hint
    have hinside : insideBox c.bbox (ATree.node b cs ch).bboxOf :=
      Sound_treeColls_inside (ATree.Sound.mk b cs ch hcs hch hsch) c hc
    have hqb : q.intersects b = true := intersects_mono hinside hint
    rw [ATree.query_node]
    rw [hqb]
    simp only [Bool.true_eq_false, if_false]
    rw [ATree.treeColls] at hc
    rcases List.mem_append.mp hc with h | h
    · exact List.mem_append_left _ h
    · refine List.mem_append_right _ ?_
      rw [List.mem_flatten] at h
      obtain ⟨l, hl, hcl⟩ := h
      rw [List.mem_map] at hl
      obtain ⟨x, _, hxl⟩ := hl
      subst hxl
      rw [List.mem_flatten]
      refine ⟨x.1.query_node q, ?_, ih x.1 x.2 c hcl hint⟩
      rw [List.mem_map]
      exact ⟨x, List.mem_attach _ _, rfl⟩

/-- Membership is preserved by the sort-and-split of _build_node. -/
theorem splitSorted_mem (colliders : List Collider) (bbox : BoundingBox)
    (c : Collider) (hc : c ∈ colliders) :
    c ∈ (splitSorted colliders bbox).1 ∨ c ∈ (splitSorted colliders bbox).2 := by
  unfold splitSorted
  rw [← List.mem_append, List.take_append_drop]
  exact ((colliders.mergeSort_perm _).mem_iff).mpr hc

/-- Each half of the split is a sublist of the input colliders. -/
theorem splitSorted_subset (colliders : List Collider) (bbox : BoundingBox)
    (c : Collider) :
    ((c ∈ (splitSorted colliders bbox).1 → c ∈ colliders) ∧
     (c ∈ (splitSorted colliders bbox).2 → c ∈ colliders)) := by
  unfold splitSorted
  constructor
  · intro h
    exact ((colliders.mergeSort_perm _).mem_iff).mp (List.mem_of_mem_take h)
  · intro h
    exact ((colliders.mergeSort_perm _).mem_iff).mp (List.mem_of_mem_drop h)

/-- The fitted child box bounds every collider of the half. -/
theorem fitBox_bounds (bbox : BoundingBox) (l : List Collider) :
    ∀ c ∈ l, insideBox c.bbox (fitBox bbox l) := by
  intro c hc
  cases l with
  | nil => cases hc
  | cons c0 rest =>
    rw [fitBox]
    rcases List.mem_cons.mp hc with h | h
    · subst h
      exact foldl_expand_grows rest c.bbox
    · exact foldl_expand_bounds rest c0.bbox c h

/-- The fitted child box stays inside any box bounding the half. -/
theorem fitBox_inside (bbox u : BoundingBox) (l : List Collider)
    (hb : insideBox bbox u) (hl : ∀ c ∈ l, insideBox c.bbox u) :
    insideBox (fitBox bbox l) u := by
  cases l with
  | nil => exact hb
  | cons c0 rest =>
    rw [fitBox]
    exact foldl_expand_lub rest c0.bbox u (hl c0 (List.mem_cons_self _ _))
      (fun c hc => hl c (List.mem_cons_of_mem _ hc))

/-- Specification of _build_node: assuming every collider fits in the node
box, the built subtree keeps that box at its root, satisfies the Sound
invariant, and stores every input collider somewhere in the subtree. -/
theorem build_node_spec (md : ℕ) :
    ∀ (n : ℕ) (colliders : List Collider) (bbox : BoundingBox) (depth : ℕ),
      md - depth ≤ n →
      (∀ c ∈ colliders, insideBox c.bbox bbox) →
      (build_node md colliders bbox depth).bboxOf = bbox ∧
      ATree.Sound (build_node md colliders bbox depth) ∧
      ∀ c ∈ colliders, c ∈ (build_node md colliders bbox depth).treeColls := by
  intro n
  induction n with
  | zero =>
    intro colliders bbox depth hn hb
    have hguard : md ≤ depth ∨ colliders.length ≤ 2 := Or.inl (by omega)
    rw [build_node, if_pos hguard]
    refine ⟨rfl, ATree.Sound.mk _ _ _ hb (by simp) (by simp), ?_⟩
    intro c hc
    rw [ATree.treeColls]
    simp [hc]
  | succ m ih =>
    intro colliders bbox depth hn hb
    by_cases hguard : md ≤ depth ∨ colliders.length ≤ 2
    · rw [build_node, if_pos hguard]
      refine ⟨rfl, ATree.Sound.mk _ _ _ hb (by simp) (by simp), ?_⟩
      intro c hc
      rw [ATree.treeColls]
      simp [hc]
    · rw [build_node, if_neg hguard]
      have hdep : depth < md := by omega
      have hleft : ∀ c ∈ (splitSorted colliders bbox).1, insideBox c.bbox bbox :=
        fun c hc => hb c ((splitSorted_subset colliders bbox c).1 hc)
      have hright : ∀ c ∈ (splitSorted colliders bbox).2, insideBox c.bbox bbox :=
        fun c hc => hb c ((splitSorted_subset colliders bbox c).2 hc)
      have hlb : ∀ c ∈ (splitSorted colliders bbox).1,
          insideBox c.bbox (fitBox bbox (splitSorted colliders bbox).1) :=
        fitBox_bounds bbox _
      have hrb : ∀ c ∈ (splitSorted colliders bbox).2,
          insideBox c.bbox (fitBox bbox (splitSorted colliders bbox).2) :=
        fitBox_bounds bbox _
      have hlin : insideBox (fitBox bbox (splitSorted colliders bbox).1) bbox :=
        fitBox_inside bbox bbox _ (insideBox_refl bbox) hleft
      have hrin : insideBox (fitBox bbox (splitSorted colliders bbox).2) bbox :=
        fitBox_inside bbox bbox _ (insideBox_refl bbox) hright
      have ihl := ih (splitSorted colliders bbox).1
        (fitBox bbox (splitSorted colliders bbox).1) (depth + 1) (by omega) hlb
      have ihr := ih (splitSorted colliders bbox).2
        (fitBox bbox (splitSorted colliders bbox).2) (depth + 1) (by omega) hrb
      set chl : List ATree :=
        (if (splitSorted colliders bbox).1.isEmpty then []
         else [build_node md (splitSorted colliders bbox).1
                 (fitBox bbox (splitSorted colliders bbox).1) (depth + 1)]) with hchl
      set chr : List ATree :=
        (if (splitSorted colliders bbox).2.isEmpty then []
         else [build_node md (splitSorted colliders bbox).2
                 (fitBox bbox (splitSorted colliders bbox).2) (depth + 1)]) with hchr
      have hchmem : ∀ t ∈ chl ++ chr,
          (t = build_node md (splitSorted colliders bbox).1
                 (fitBox bbox (splitSorted colliders bbox).1) (depth + 1)) ∨
          (t = build_node md (splitSorted colliders bbox).2
                 (fitBox bbox (splitSorted colliders bbox).2) (depth + 1)) := by
        intro t ht
        rcases List.mem_append.mp ht with h | h
        · left
          rw [hchl] at h
          split at h
          · cases h
          · simpa using h
        · right
          rw [hchr] at h
          split at h
          · cases h
          · simpa using h
      refine ⟨rfl, ?_, ?_⟩
      · refine ATree.Sound.mk _ _ _ (by simp) ?_ ?_
        · intro t ht
          rcases hchmem t ht with h | h
          · rw [h, ihl.1]
            exact hlin
          · rw [h, ihr.1]
            exact hrin
        · intro t ht
          rcases hchmem t ht with h | h
          · rw [h]
            exact ihl.2.1
          · rw [h]
            exact ihr.2.1
      · intro c hc
        rw [ATree.treeColls]
        refine List.mem_append_right _ ?_
        rw [List.mem_flatten]
        rcases splitSorted_mem colliders bbox c hc with h | h
        · have hne : (splitSorted colliders bbox).1.isEmpty = false := by
            cases hE : (splitSorted colliders bbox).1.isEmpty
            · rfl
            · rw [List.isEmpty_iff] at hE
              rw [hE] at h
              cases h
          have htmem : build_node md (splitSorted colliders bbox).1
              (fitBox bbox (splitSorted colliders bbox).1) (depth + 1) ∈ chl := by
            rw [hchl, hne]
            simp
          refine ⟨(build_node md (splitSorted colliders bbox).1
              (fitBox bbox (splitSorted colliders bbox).1) (depth + 1)).treeColls,
              ?_, ihl.2.2 c h⟩
          rw [List.mem_map]
          refine ⟨⟨_, List.mem_append_left _ htmem⟩, List.mem_attach _ _, rfl⟩
        · have hne : (splitSorted colliders bbox).2.isEmpty = false := by
            cases hE : (splitSorted colliders bbox).2.isEmpty
            · rfl
            · rw [List.isEmpty_iff] at hE
              rw [hE] at h
              cases h
          have htmem : build_node md (splitSorted colliders bbox).2
              (fitBox bbox (splitSorted colliders bbox).2) (depth + 1) ∈ chr := by
            rw [hchr, hne]
            simp
          refine ⟨(build_node md (splitSorted colliders bbox).2
              (fitBox bbox (splitSorted colliders bbox).2) (depth + 1)).treeColls,
              ?_, ihr.2.2 c h⟩
          rw [List.mem_map]
          refine ⟨⟨_, List.mem_append_right _ htmem⟩, List.mem_attach _ _, rfl⟩

/- ============================================================
   Claim C7
   ============================================================ -/

/-- C7: for every finite static collider list and query box, after building
the AABB tree, query_collisions returns every collider whose bounding box
intersects the query box — tracked by object identity (cid), because build
enlarges the first collider's box in place to the global bounds, which can
only grow it (the original box still fits inside the returned collider's
box).  The result may contain additional non-intersecting colliders; no
intersecting one is omitted. -/
theorem C7_tree_soundness (t0 : AABBTree) (colliders : List Collider)
    (q : BoundingBox) (c : Collider) (hc : c ∈ colliders)
    (hq : c.bbox.intersects q = true) :
    ∃ c' ∈ (t0.build colliders).query_collisions q,
      c'.cid = c.cid ∧ insideBox c.bbox c'.bbox := by
  cases colliders with
  | nil => cases hc
  | cons c0 rest =>
    set global : BoundingBox :=
      rest.foldl (fun acc a => acc.expand_to_include a.bbox) c0.bbox with hglobal
    set colls2 : List Collider := { c0 with bbox := global } :: rest with hcolls2
    have hpre : ∀ a ∈ colls2, insideBox a.bbox global := by
      intro a ha
      rcases List.mem_cons.mp ha with h | h
      · subst h
        exact insideBox_refl _
      · exact foldl_expand_bounds rest c0.bbox a h
    have hspec := build_node_spec t0.max_depth t0.max_depth colls2 global 0
      (by omega) hpre
    have hroot : (t0.build (c0 :: rest)).query_collisions q =
        (build_node t0.max_depth colls2 global 0).query_node q := rfl
    rcases List.mem_cons.mp hc with h | h
    · subst h
      refine ⟨{ c with bbox := global }, ?_, rfl, foldl_expand_grows rest c.bbox⟩
      rw [hroot]
      refine Sound_query_complete hspec.2.1 q _
        (hspec.2.2 _ (List.mem_cons_self _ _)) ?_
      rw [intersects_comm] at hq
      exact intersects_mono (foldl_expand_grows rest c.bbox) hq
    · refine ⟨c, ?_, rfl, insideBox_refl _⟩
      rw [hroot]
      refine Sound_query_complete hspec.2.1 q _
        (hspec.2.2 _ (List.mem_cons_of_mem _ h)) ?_
      rw [intersects_comm] at hq
      exact hq

/-- Witness for C7: three static colliders, a query box overlapping only the
first one; the tree query must report it. -/
theorem C7_tree_soundness_witness :
    ∃ c' ∈ (AABBTree.mk 4 none []).build
        [⟨0, "Stock", ⟨0, 0, 0, 10, 10, 10⟩, CollisionType.TOOL_STOCK⟩,
         ⟨1, "Fixture1", ⟨20, 0, 0, 30, 10, 10⟩, CollisionType.TOOL_FIXTURE⟩,
         ⟨2, "Fixture2", ⟨40, 0, 0, 50, 10, 5⟩, CollisionType.TOOL_FIXTURE⟩]
        |>.query_collisions ⟨5, 5, 5, 6, 6, 6⟩,
      c'.cid = 0 ∧
        insideBox (BoundingBox.mk 0 0 0 10 10 10) c'.bbox := by
  exact C7_tree_soundness (AABBTree.mk 4 none []) _ _
    ⟨0, "Stock", ⟨0, 0, 0, 10, 10, 10⟩, CollisionType.TOOL_STOCK⟩
    (List.mem_cons_self _ _) (by decide)

/- ============================================================
   core/parser.py : the legacy regex-based parser
   ============================================================ -/

/-- The letters of the regex TOKEN_PATTERN character class (case-insensitive,
the match is stored upper-cased). -/
def isAddrLetter (c : Char) : Bool :=
  c.toUpper ∈ ['G', 'M', 'T', 'X', 'Y', 'Z', 'I', 'J', 'K', 'F', 'R', 'N',
                'S', 'H', 'L', 'Q', 'P']

/-- Decimal digit list to a natural number. -/
def digitsVal (ds : List Char) : ℕ :=
  ds.foldl (fun n c => 10 * n + (c.toNat - 48)) 0

/-- The value of an unsigned decimal literal with integer digits ds1 and
fraction digits ds2. -/
def decimalVal (ds1 ds2 : List Char) : ℚ :=
  (digitsVal ds1 : ℚ) + (digitsVal ds2 : ℚ) / ((10 : ℚ) ^ ds2.length)

/-- Greedy match of the regex fragment d* .? d+ (an unsigned integer or
decimal number) at the head of the character list; returns the value and the
unconsumed suffix.  Mirrors the backtracking behaviour of the Python regex:
digits followed by a dot with no fraction digits match the digits only. -/
def matchUnsigned (cs : List Char) : Option (ℚ × List Char) :=
  match cs.dropWhile Char.isDigit with
  | '.' :: rest2 =>
    if (rest2.takeWhile Char.isDigit).isEmpty then
      if (cs.takeWhile Char.isDigit).isEmpty then none
      else some (decimalVal (cs.takeWhile Char.isDigit) [], '.' :: rest2)
    else some (decimalVal (cs.takeWhile Char.isDigit) (rest2.takeWhile Char.isDigit),
               rest2.dropWhile Char.isDigit)
  | rest1 =>
    if (cs.takeWhile Char.isDigit).isEmpty then none
    else some (decimalVal (cs.takeWhile Char.isDigit) [], rest1)

/-- Match of the regex fragment -? d* .? d+ : an optionally signed number. -/
def matchNumber (cs : List Char) : Option (ℚ × List Char) :=
  match cs with
  | '-' :: rest => (matchUnsigned rest).map fun vr => (-vr.1, vr.2)
  | _ => matchUnsigned cs

theorem length_dropWhile_le' (p : Char → Bool) (l : List Char) :
    (l.dropWhile p).length ≤ l.length :=
  (List.dropWhile_suffix p).length_le

theorem matchUnsigned_rest_length (cs : List Char) (v : ℚ) (r : List Char)
    (h : matchUnsigned cs = some (v, r)) : r.length ≤ cs.length := by
  unfold matchUnsigned at h
  have hdw : (cs.dropWhile Char.isDigit).length ≤ cs.length :=
    length_dropWhile_le' _ _
  split at h
  case h_1 rest2 heq =>
    have h3 : rest2.length < (cs.dropWhile Char.isDigit).length := by
      rw [heq]
      simp
    split_ifs at h with h1 h2
    · simp only [Option.some.injEq, Prod.mk.injEq] at h
      have h4 : r.length = rest2.length + 1 := by
        rw [← h.2]
        rfl
      omega
    · simp only [Option.some.injEq, Prod.mk.injEq] at h
      have h4 : (rest2.dropWhile Char.isDigit).length ≤ rest2.length :=
        length_dropWhile_le' _ _
      obtain ⟨h5, h6⟩ := h
      subst h6
      omega
  case h_2 =>
    split_ifs at h
    simp only [Option.some.injEq, Prod.mk.injEq] at h
    obtain ⟨h5, h6⟩ := h
    subst h6
    omega

theorem matchNumber_rest_length (cs : List Char) (v : ℚ) (r : List Char)
    (h : matchNumber cs = some (v, r)) : r.length ≤ cs.length := by
  unfold matchNumber at h
  split at h
  case h_1 rest =>
    rcases hm : matchUnsigned rest with _ | ⟨v2, r2⟩
    · rw [hm] at h
      cases h
    · rw [hm] at h
      simp only [Option.map_some', Option.some.injEq, Prod.mk.injEq] at h
      have h1 := matchUnsigned_rest_length rest v2 r2 hm
      have h2 : r = r2 := h.2.symm
      subst h2
      calc r.length ≤ rest.length := h1
        _ ≤ rest.length + 1 := by omega
  case h_2 =>
    exact matchUnsigned_rest_length cs v r h

/-- re.finditer over TOKEN_PATTERN: scan left to right; at a class letter try
to match optional whitespace followed by a number; on success emit the
(upper-cased letter, value) pair and resume after the match, otherwise resume
one character further on.  The scan is written with an explicit fuel
parameter so that it is structurally recursive; every step consumes at least
one character (matchNumber_rest_length), so fuel = length of the input always
suffices. -/
def findMatchesAux : ℕ → List Char → List (Char × ℚ)
  | 0, _ => []
  | _, [] => []
  | fuel + 1, c :: rest =>
    if isAddrLetter c then
      match matchNumber (rest.dropWhile Char.isWhitespace) with
      | some vr => (c.toUpper, vr.1) :: findMatchesAux fuel vr.2
      | none => findMatchesAux fuel rest
    else findMatchesAux fuel rest

def findMatches (cs : List Char) : List (Char × ℚ) :=
  findMatchesAux cs.length cs

/-- The token dict of one line: at most one stored value per address letter;
a later match for the same letter overwrites the earlier one. -/
structure TokLine where
  G : Option ℚ := none
  M : Option ℚ := none
  T : Option ℚ := none
  X : Option ℚ := none
  Y : Option ℚ := none
  Z : Option ℚ := none
  I : Option ℚ := none
  J : Option ℚ := none
  K : Option ℚ := none
  F : Option ℚ := none
  R : Option ℚ := none
  N : Option ℚ := none
  S : Option ℚ := none
  H : Option ℚ := none
  L : Option ℚ := none
  Q : Option ℚ := none
  P : Option ℚ := none
  deriving DecidableEq

/-- result[letter] = value, the dict store of _tokenize_line. -/
def TokLine.store (d : TokLine) (c : Char) (v : ℚ) : TokLine :=
  if c = 'G' then { d with G := some v }
  else if c = 'M' then { d with M := some v }
  else if c = 'T' then { d with T := some v }
  else if c = 'X' then { d with X := some v }
  else if c = 'Y' then { d with Y := some v }
  else if c = 'Z' then { d with Z := some v }
  else if c = 'I' then { d with I := some v }
  else if c = 'J' then { d with J := some v }
  else if c = 'K' then { d with K := some v }
  else if c = 'F' then { d with F := some v }
  else if c = 'R' then { d with R := some v }
  else if c = 'N' then { d with N := some v }
  else if c = 'S' then { d with S := some v }
  else if c = 'H' then { d with H := some v }
  else if c = 'L' then { d with L := some v }
  else if c = 'Q' then { d with Q := some v }
  else if c = 'P' then { d with P := some v }
  else d

/-- An empty dict (if not tokens: continue). -/
def TokLine.isEmptyTok (d : TokLine) : Bool :=
  d.G.isNone && d.M.isNone && d.T.isNone && d.X.isNone && d.Y.isNone &&
  d.Z.isNone && d.I.isNone && d.J.isNone && d.K.isNone && d.F.isNone &&
  d.R.isNone && d.N.isNone && d.S.isNone && d.H.isNone && d.L.isNone &&
  d.Q.isNone && d.P.isNone

/-- Python str.strip on a line. -/
def stripChars (cs : List Char) : List Char :=
  ((cs.dropWhile Char.isWhitespace).reverse.dropWhile Char.isWhitespace).reverse

/-- _tokenize_line from core/parser.py: drop the semicolon comment, strip,
skip blank lines and lines opening with a parenthesis, then fold the regex
matches into the per-letter dict. -/
def _tokenize_line (cs : List Char) : TokLine :=
  let line := stripChars (cs.takeWhile fun c => c ≠ ';')
  if line.isEmpty ∨ line.head? = some '(' then {}
  else (findMatches line).foldl (fun d m => d.store m.1 m.2) {}

/-- Python str.splitlines restricted to newline, carriage return and CRLF
terminators (a trailing terminator produces no extra empty line). -/
def splitlinesAux (cur : List Char) : List Char → List (List Char)
  | [] => if cur.isEmpty then [] else [cur.reverse]
  | '\r' :: '\n' :: rest => cur.reverse :: splitlinesAux [] rest
  | '\r' :: rest => cur.reverse :: splitlinesAux [] rest
  | '\n' :: rest => cur.reverse :: splitlinesAux [] rest
  | c :: rest => splitlinesAux (c :: cur) rest

def splitlines (cs : List Char) : List (List Char) :=
  splitlinesAux [] cs

/-- ModalState from core/parser.py.  The string constants G00-G03 (motion),
G17-G19 (plane) and G20/G21 (units) are encoded by their integer codes; wcs
holds the index 0-5 for G54-G59; absolute is the G90/G91 flag.  The unused
crc / tlc fields and the wcs_offsets table, which parse_string never reads,
are not modelled. -/
structure ModalState where
  motion : ℤ
  plane : ℤ
  units : ℤ
  wcs : ℤ
  absolute : Bool
  position : V3 ℚ
  feed_rate : Option ℚ
  tool_id : ℤ
  spindle_rpm : ℚ
  spindle_on : Bool
  deriving DecidableEq

/-- The constructor defaults of ModalState (motion G01, plane G17, units G21,
WCS G54, absolute). -/
def ModalState.init (pos : V3 ℚ) : ModalState :=
  ⟨1, 17, 21, 0, true, pos, none, 0, 0, false⟩

/-- _parse_g_code from core/parser.py: one G word updates the modal field of
its group; anything unrecognized leaves the state unchanged. -/
def _parse_g_code (g : ℤ) (modal : ModalState) : ModalState :=
  if g = 0 ∨ g = 1 ∨ g = 2 ∨ g = 3 then { modal with motion := g }
  else if g = 17 then { modal with plane := 17 }
  else if g = 18 then { modal with plane := 18 }
  else if g = 19 then { modal with plane := 19 }
  else if g = 20 then { modal with units := 20 }
  else if g = 21 then { modal with units := 21 }
  else if g = 54 then { modal with wcs := 0 }
  else if g = 55 then { modal with wcs := 1 }
  else if g = 56 then { modal with wcs := 2 }
  else if g = 57 then { modal with wcs := 3 }
  else if g = 58 then { modal with wcs := 4 }
  else if g = 59 then { modal with wcs := 5 }
  else if g = 90 then { modal with absolute := true }
  else if g = 91 then { modal with absolute := false }
  else modal

/-- The four motion kinds of the legacy segment dicts. -/
inductive SegType where
  | rapid
  | linear
  | arc_cw
  | arc_ccw
  deriving DecidableEq

/-- A legacy segment dict from parse_string: type, start, end, plane, wcs,
the modal snapshot (to_dict), an arc center for arcs only and the optional
feedrate key. -/
structure LSeg where
  seg_type : SegType
  start_pos : V3 ℚ
  end_pos : V3 ℚ
  plane : ℤ
  wcs : ℤ
  modal : ModalState
  center : Option (V3 ℚ)
  feedrate : Option ℚ
  deriving DecidableEq

/-- One coordinate word applied to the current axis value: absent leaves the
axis unchanged, absolute replaces it by value times the unit scale, and
incremental adds value times the unit scale. -/
def axisTarget (absolute : Bool) (cur : ℚ) (w : Option ℚ) (scale : ℚ) : ℚ :=
  match w with
  | none => cur
  | some v => if absolute then v * scale else cur + v * scale

/-- The end position built from the X/Y/Z words of a line. -/
def endPosition (modal : ModalState) (tk : TokLine) (scale : ℚ) : V3 ℚ :=
  ⟨axisTarget modal.absolute modal.position.x tk.X scale,
   axisTarget modal.absolute modal.position.y tk.Y scale,
   axisTarget modal.absolute modal.position.z tk.Z scale⟩

/-- The I/J/K center offset vector of a line (missing words are zero). -/
def centerOffset (tk : TokLine) (scale : ℚ) : V3 ℚ :=
  ⟨(tk.I.map fun v => v * scale).getD 0,
   (tk.J.map fun v => v * scale).getD 0,
   (tk.K.map fun v => v * scale).getD 0⟩

/-- The arc center: start plus the center offset projected onto the active
plane (the out-of-plane component of the offset is dropped). -/
def arcCenter (plane : ℤ) (start : V3 ℚ) (off : V3 ℚ) : V3 ℚ :=
  if plane = 17 then start + ⟨off.x, off.y, 0⟩
  else if plane = 18 then start + ⟨off.x, 0, off.z⟩
  else start + ⟨0, off.y, off.z⟩

/-- True when the line carries an M2 or M30 word (program end). -/
def TokLine.progEnd (tk : TokLine) : Bool :=
  match tk.M with
  | some m => decide (ratTrunc m = 2 ∨ ratTrunc m = 30)
  | none => false

/-- True when the line carries an X, Y or Z word. -/
def TokLine.hasPosition (tk : TokLine) : Bool :=
  tk.X.isSome || tk.Y.isSome || tk.Z.isSome

/-- One iteration of the parse_string loop on a non-empty token dict, in
source order: G words update the modal state and the unit scale; an M2/M30
word breaks the loop (modelled as the none result); M6 with T changes the
tool, M3/M5 toggle the spindle, S sets the spindle speed; the end position is
built from the coordinate words (the source computes it just before the F
word is stored, but endPosition reads only the absolute flag and the
position, which the feed step never touches); a line without coordinate
words emits nothing; otherwise a segment of the active motion kind is
emitted (arcs carry the plane-projected center) and the position advances to
the end point.  modalG applies the G words of a line to the modal state. -/
def modalG (tk : TokLine) (modal : ModalState) : ModalState :=
  match tk.G with
  | some gq => _parse_g_code (ratTrunc gq) modal
  | none => modal

/-- The units-scale update of the parse_string loop (G20 switches to the
inch factor 25.4, G21 back to 1). -/
def scaleG (tk : TokLine) (units_scale : ℚ) : ℚ :=
  match tk.G with
  | some gq =>
      if ratTrunc gq = 20 then (254 / 10 : ℚ)
      else if ratTrunc gq = 21 then 1
      else units_scale
  | none => units_scale

/-- Tool change: M6 together with a T word sets the tool id. -/
def modalToolChange (tk : TokLine) (modal : ModalState) : ModalState :=
  match tk.M, tk.T with
  | some m, some t =>
      if ratTrunc m = 6 then { modal with tool_id := ratTrunc t } else modal
  | _, _ => modal

/-- Spindle control: M3 on, M5 off (the legacy parser has no M4 case). -/
def modalSpindle (tk : TokLine) (modal : ModalState) : ModalState :=
  match tk.M with
  | some m =>
      if ratTrunc m = 3 then { modal with spindle_on := true }
      else if ratTrunc m = 5 then { modal with spindle_on := false }
      else modal
  | none => modal

/-- Spindle speed: an S word stores the rpm. -/
def modalSpeed (tk : TokLine) (modal : ModalState) : ModalState :=
  match tk.S with
  | some s => { modal with spindle_rpm := s }
  | none => modal

/-- Feed rate: an F word stores the feed. -/
def modalFeed (tk : TokLine) (modal : ModalState) : ModalState :=
  match tk.F with
  | some f => { modal with feed_rate := some f }
  | none => modal

/-- The modal state after the non-positional words of a line, in source
order: G words, tool change, spindle on/off, spindle speed, feed. -/
def modalSteps (tk : TokLine) (modal : ModalState) : ModalState :=
  modalFeed tk (modalSpeed tk (modalSpindle tk (modalToolChange tk (modalG tk modal))))

/-- The segment emitted for a line with coordinate words, by the motion mode
in effect: a rapid, linear or arc segment (arcs carry the plane-projected
center); the if/elif chain of the source emits nothing for any other motion
value, which cannot occur since only G00-G03 are ever stored. -/
def emittedSeg (m5 : ModalState) (endp : V3 ℚ) (tk : TokLine) (scale1 : ℚ) :
    Option LSeg :=
  if m5.motion = 0 then
    some ⟨SegType.rapid, m5.position, endp, m5.plane,
      m5.wcs, m5, none, m5.feed_rate⟩
  else if m5.motion = 1 then
    some ⟨SegType.linear, m5.position, endp, m5.plane,
      m5.wcs, m5, none, m5.feed_rate⟩
  else if m5.motion = 2 ∨ m5.motion = 3 then
    some ⟨(if m5.motion = 2 then SegType.arc_cw else SegType.arc_ccw),
      m5.position, endp, m5.plane, m5.wcs, m5,
      some (arcCenter m5.plane m5.position (centerOffset tk scale1)),
      m5.feed_rate⟩
  else none

def processLine (modal : ModalState) (units_scale : ℚ) (tk : TokLine) :
    Option (Option LSeg × ModalState × ℚ) :=
  if tk.progEnd then none
  else
    let scale1 := scaleG tk units_scale
    let modal5 := modalSteps tk modal
    let endp := endPosition modal5 tk scale1
    if tk.hasPosition = false then some (none, modal5, scale1)
    else
      some (emittedSeg modal5 endp tk scale1,
        { modal5 with position := endp }, scale1)

/-- The parse_string line loop: skip empty dicts, stop at program end, thread
the modal state and unit scale, collect the emitted segments. -/
def parseLinesAux (modal : ModalState) (units_scale : ℚ) :
    List TokLine → List LSeg
  | [] => []
  | tk :: rest =>
    if tk.isEmptyTok then parseLinesAux modal units_scale rest
    else
      match processLine modal units_scale tk with
      | none => []
      | some (none, m2, s2) => parseLinesAux m2 s2 rest
      | some (some seg, m2, s2) => seg :: parseLinesAux m2 s2 rest

/-- parse_string from core/parser.py: tokenize each line and run the modal
interpretation loop from the given initial position (the final modal state,
also returned by the source, is not needed by any claim). -/
def parse_string (content : String) (initial_position : V3 ℚ)
    (metric : Bool) : List LSeg :=
  parseLinesAux (ModalState.init initial_position)
    (if metric then 1 else (254 / 10 : ℚ))
    ((splitlines content.toList).map _tokenize_line)

/- ============================================================
   core/ast_nodes.py and core/parser_new.py : the AST-based
   modal interpreter
   ============================================================ -/

/-- The word nodes of a block that GCodeParser.interpret_to_segments reacts
to: G words, M words, coordinate words (X/Y/Z/I/J/K/R), and feed words.
Spindle and tool words are carried in a block but ignored by the
interpretation loop, which matches on the other node classes only. -/
inductive WordNode where
  | gcode (value : ℚ)
  | mcode (value : ℚ)
  | coord (letter : Char) (value : ℚ)
  | feed (value : ℚ)
  | spindle (value : ℚ)
  | tool (value : ℚ)
  deriving DecidableEq

/-- BlockNode from core/ast_nodes.py (the comment text is irrelevant to
interpretation and not modelled). -/
structure BlockNode where
  block_number : Option ℤ
  words : List WordNode
  block_skip : Bool
  deriving DecidableEq

/-- ModalStateNode from core/ast_nodes.py with its dataclass defaults. -/
structure ModalStateNode where
  motion_mode : ℤ
  plane : ℤ
  absolute : Bool
  metric : Bool
  wcs : ℤ
  feed_per_minute : Bool
  cutter_comp : ℤ
  tool_length_comp : ℤ
  canned_return : ℤ
  canned_cycle : ℤ
  position : V3 ℚ
  feed_rate : ℚ
  tool_id : ℤ
  spindle_rpm : ℚ
  spindle_on : Bool
  deriving DecidableEq

def ModalStateNode.init : ModalStateNode :=
  ⟨1, 17, true, true, 54, true, 40, 49, 98, 80, ⟨0, 0, 0⟩, 0, 0, 0, false⟩

/-- get_modal_group from core/lexer/tokens.py followed by the group dispatch
of ModalStateMachine.update_from_g_code in core/parser_new.py: each G code in
the table updates the modal field owned by its group; a G code outside the
table leaves the state unchanged. -/
def update_from_g_code (g : ℤ) (s : ModalStateNode) : ModalStateNode :=
  if g = 0 ∨ g = 1 ∨ g = 2 ∨ g = 3 then { s with motion_mode := g }
  else if g = 17 ∨ g = 18 ∨ g = 19 then { s with plane := g }
  else if g = 90 ∨ g = 91 then { s with absolute := g = 90 }
  else if g = 20 ∨ g = 21 then { s with metric := g = 21 }
  else if g = 54 ∨ g = 55 ∨ g = 56 ∨ g = 57 ∨ g = 58 ∨ g = 59 then
    { s with wcs := g }
  else if g = 40 ∨ g = 41 ∨ g = 42 then { s with cutter_comp := g }
  else if g = 43 ∨ g = 44 ∨ g = 49 then { s with tool_length_comp := g }
  else if g = 98 ∨ g = 99 then { s with canned_return := g }
  else if (73 ≤ g ∧ g ≤ 74) ∨ g = 76 ∨ (80 ≤ g ∧ g ≤ 89) then
    { s with canned_cycle := g }
  else s

/-- The motion command nodes of core/ast_nodes.py. -/
inductive MotionCommand where
  | rapidMove (x y z : Option ℚ)
  | linearMove (x y z : Option ℚ) (feed : Option ℚ)
  | arcMove (clockwise : Bool) (x y z i j k r : Option ℚ) (feed : Option ℚ)
  deriving DecidableEq

/-- ToolpathSegment from core/ast_nodes.py.  The plane string (for example
the text G17) is encoded by its integer code, as elsewhere. -/
structure ToolpathSegment where
  block_number : Option ℤ
  motion_type : SegType
  start_pos : V3 ℚ
  end_pos : V3 ℚ
  feed_rate : ℚ
  tool_id : ℤ
  wcs : ℤ
  arc_center : Option (V3 ℚ)
  arc_radius : Option ℚ
  plane : ℤ
  modal : ModalStateNode
  deriving DecidableEq

/-- One axis word of a move resolved against the distance mode: an absent
word keeps the start coordinate, an absolute word replaces it, an incremental
word adds to it. -/
def resolveAxis (absolute : Bool) (start : ℚ) (w : Option ℚ) : ℚ :=
  match w with
  | none => start
  | some v => if absolute then v else start + v

/-- create_segment_from_move from core/ast_nodes.py. -/
def create_segment_from_move (move : MotionCommand) (start_pos : V3 ℚ)
    (modal : ModalStateNode) (block_num : Option ℤ) : ToolpathSegment :=
  match move with
  | .rapidMove x y z =>
    { block_number := block_num
      motion_type := SegType.rapid
      start_pos := start_pos
      end_pos := ⟨resolveAxis modal.absolute start_pos.x x,
                  resolveAxis modal.absolute start_pos.y y,
                  resolveAxis modal.absolute start_pos.z z⟩
      feed_rate := 0
      tool_id := modal.tool_id
      wcs := modal.wcs
      arc_center := none
      arc_radius := none
      plane := 17
      modal := modal }
  | .linearMove x y z feed =>
    { block_number := block_num
      motion_type := SegType.linear
      start_pos := start_pos
      end_pos := ⟨resolveAxis modal.absolute start_pos.x x,
                  resolveAxis modal.absolute start_pos.y y,
                  resolveAxis modal.absolute start_pos.z z⟩
      feed_rate := feed.getD modal.feed_rate
      tool_id := modal.tool_id
      wcs := modal.wcs
      arc_center := none
      arc_radius := none
      plane := 17
      modal := modal }
  | .arcMove clockwise x y z i j k r feed =>
    { block_number := block_num
      motion_type := if clockwise then SegType.arc_cw else SegType.arc_ccw
      start_pos := start_pos
      end_pos := ⟨resolveAxis modal.absolute start_pos.x x,
                  resolveAxis modal.absolute start_pos.y y,
                  resolveAxis modal.absolute start_pos.z z⟩
      feed_rate := feed.getD modal.feed_rate
      tool_id := modal.tool_id
      wcs := modal.wcs
      arc_center :=
        if r.isSome then none
        else some ⟨start_pos.x + i.getD 0, start_pos.y + j.getD 0,
                   start_pos.z + k.getD 0⟩
      arc_radius := r
      plane := modal.plane
      modal := modal }

/-- The per-block data collected by the word scan of
interpret_to_segments. -/
structure BlockScan where
  modal : ModalStateNode
  coordX : Option ℚ
  coordY : Option ℚ
  coordZ : Option ℚ
  ijkI : Option ℚ
  ijkJ : Option ℚ
  ijkK : Option ℚ
  r : Option ℚ
  feed : Option ℚ

/-- The word loop of interpret_to_segments: G words update the modal state in
order; an M2 or M30 word terminates the whole interpretation on the spot
(none result); coordinate words fill the per-block X/Y/Z, I/J/K and R slots
(a repeated letter overwrites); F fills the feed slot; spindle and tool words
fall through all isinstance checks and are ignored. -/
def scanWords : BlockScan → List WordNode → Option BlockScan
  | acc, [] => some acc
  | acc, w :: rest =>
    match w with
    | .gcode v => scanWords { acc with modal := update_from_g_code (ratTrunc v) acc.modal } rest
    | .mcode v =>
      if ratTrunc v = 2 ∨ ratTrunc v = 30 then none
      else scanWords acc rest
    | .coord letter v =>
      if letter = 'X' then scanWords { acc with coordX := some v } rest
      else if letter = 'Y' then scanWords { acc with coordY := some v } rest
      else if letter = 'Z' then scanWords { acc with coordZ := some v } rest
      else if letter = 'I' then scanWords { acc with ijkI := some v } rest
      else if letter = 'J' then scanWords { acc with ijkJ := some v } rest
      else if letter = 'K' then scanWords { acc with ijkK := some v } rest
      else if letter = 'R' then scanWords { acc with r := some v } rest
      else scanWords acc rest
    | .feed v => scanWords { acc with feed := some v } rest
    | .spindle _ => scanWords acc rest
    | .tool _ => scanWords acc rest

/-- GCodeParser.interpret_to_segments from core/parser_new.py, from the block
list on: skipped blocks are dropped; the words of each block are scanned
(program end stops everything, returning the segments emitted so far); a
motion command is built from the motion mode now in effect; blocks without
any X/Y/Z word emit nothing; otherwise create_segment_from_move emits the
segment and the current position advances to its end. -/
def interpret_to_segments (modal : ModalStateNode) (position : V3 ℚ) :
    List BlockNode → List ToolpathSegment
  | [] => []
  | block :: rest =>
    if block.block_skip then interpret_to_segments modal position rest
    else
      match scanWords ⟨modal, none, none, none, none, none, none, none, none⟩
          block.words with
      | none => []
      | some acc =>
        let m := acc.modal
        if m.motion_mode = 0 ∨ m.motion_mode = 1 ∨
            m.motion_mode = 2 ∨ m.motion_mode = 3 then
          if acc.coordX = none ∧ acc.coordY = none ∧ acc.coordZ = none then
            interpret_to_segments m position rest
          else
            let move : MotionCommand :=
              if m.motion_mode = 0 then .rapidMove acc.coordX acc.coordY acc.coordZ
              else if m.motion_mode = 1 then
                .linearMove acc.coordX acc.coordY acc.coordZ acc.feed
              else
                .arcMove (m.motion_mode = 2) acc.coordX acc.coordY acc.coordZ
                  acc.ijkI acc.ijkJ acc.ijkK acc.r acc.feed
            let seg := create_segment_from_move move position m block.block_number
            seg :: interpret_to_segments
              { m with position := seg.end_pos } seg.end_pos rest
        else
          interpret_to_segments m position rest

/- ============================================================
   Claim C1
   ============================================================ -/

/-- The motion mode of the legacy modal state is always one of G00-G03. -/
def motionOK (m : ModalState) : Prop :=
  m.motion = 0 ∨ m.motion = 1 ∨ m.motion = 2 ∨ m.motion = 3

theorem _parse_g_code_position (g : ℤ) (m : ModalState) :
    (_parse_g_code g m).position = m.position := by
  unfold _parse_g_code
  simp only [apply_ite ModalState.position, ite_self]

theorem _parse_g_code_motion_eq (g : ℤ) (m : ModalState) :
    (_parse_g_code g m).motion =
      if g = 0 ∨ g = 1 ∨ g = 2 ∨ g = 3 then g else m.motion := by
  unfold _parse_g_code
  simp only [apply_ite ModalState.motion, ite_self]

theorem _parse_g_code_motion (g : ℤ) (m : ModalState) (h : motionOK m) :
    motionOK (_parse_g_code g m) := by
  unfold motionOK
  rw [_parse_g_code_motion_eq]
  split_ifs with h1
  · exact h1
  · exact h

theorem modalG_position (tk : TokLine) (m : ModalState) :
    (modalG tk m).position = m.position := by
  unfold modalG
  rcases tk.G with _ | g
  · rfl
  · exact _parse_g_code_position _ _

theorem modalToolChange_position (tk : TokLine) (m : ModalState) :
    (modalToolChange tk m).position = m.position := by
  unfold modalToolChange
  rcases tk.M with _ | mm <;> rcases tk.T with _ | t <;> dsimp only <;>
    first
      | rfl
      | (split_ifs <;> rfl)

theorem modalSpindle_position (tk : TokLine) (m : ModalState) :
    (modalSpindle tk m).position = m.position := by
  unfold modalSpindle
  rcases tk.M with _ | mm <;> dsimp only <;>
    first
      | rfl
      | (split_ifs <;> rfl)

theorem modalSpeed_position (tk : TokLine) (m : ModalState) :
    (modalSpeed tk m).position = m.position := by
  unfold modalSpeed
  rcases tk.S with _ | s <;> rfl

theorem modalFeed_position (tk : TokLine) (m : ModalState) :
    (modalFeed tk m).position = m.position := by
  unfold modalFeed
  rcases tk.F with _ | f <;> rfl

theorem modalSteps_position (tk : TokLine) (m : ModalState) :
    (modalSteps tk m).position = m.position := by
  unfold modalSteps
  rw [modalFeed_position, modalSpeed_position, modalSpindle_position,
    modalToolChange_position, modalG_position]

theorem modalG_motion (tk : TokLine) (m : ModalState) (h : motionOK m) :
    motionOK (modalG tk m) := by
  unfold modalG
  rcases tk.G with _ | g
  · exact h
  · exact _parse_g_code_motion _ _ h

theorem modalToolChange_motion (tk : TokLine) (m : ModalState) :
    (modalToolChange tk m).motion = m.motion := by
  unfold modalToolChange
  rcases tk.M with _ | mm <;> rcases tk.T with _ | t <;> dsimp only <;>
    first
      | rfl
      | (split_ifs <;> rfl)

theorem modalSpindle_motion (tk : TokLine) (m : ModalState) :
    (modalSpindle tk m).motion = m.motion := by
  unfold modalSpindle
  rcases tk.M with _ | mm <;> dsimp only <;>
    first
      | rfl
      | (split_ifs <;> rfl)

theorem modalSpeed_motion (tk : TokLine) (m : ModalState) :
    (modalSpeed tk m).motion = m.motion := by
  unfold modalSpeed
  rcases tk.S with _ | s <;> rfl

theorem modalFeed_motion (tk : TokLine) (m : ModalState) :
    (modalFeed tk m).motion = m.motion := by
  unfold modalFeed
  rcases tk.F with _ | f <;> rfl

theorem modalSteps_motion (tk : TokLine) (m : ModalState) (h : motionOK m) :
    motionOK (modalSteps tk m) := by
  have hg := modalG_motion tk m h
  unfold motionOK at *
  unfold modalSteps
  rw [modalFeed_motion, modalSpeed_motion, modalSpindle_motion,
    modalToolChange_motion]
  exact hg

/-- An emitted segment reads its start from the current position and its end
from the computed end position. -/
theorem emittedSeg_spec (m5 : ModalState) (endp : V3 ℚ) (tk : TokLine)
    (scale1 : ℚ) (seg : LSeg)
    (h : emittedSeg m5 endp tk scale1 = some seg) :
    seg.start_pos = m5.position ∧ seg.end_pos = endp := by
  unfold emittedSeg at h
  split_ifs at h <;>
    simp only [Option.some.injEq] at h <;>
    rw [← h] <;>
    exact ⟨rfl, rfl⟩

/-- Under the motion invariant, a line with coordinate words always emits a
segment. -/
theorem emittedSeg_isSome (m5 : ModalState) (endp : V3 ℚ) (tk : TokLine)
    (scale1 : ℚ) (hmo : motionOK m5) :
    (emittedSeg m5 endp tk scale1).isSome = true := by
  unfold emittedSeg
  unfold motionOK at hmo
  split_ifs with h0 h1 h23 <;> first | rfl | tauto

/-- An emitted segment starts at the current position, and the threaded
position advances to its end. -/
theorem processLine_emit (m : ModalState) (s : ℚ) (tk : TokLine)
    (seg : LSeg) (m2 : ModalState) (s2 : ℚ)
    (h : processLine m s tk = some (some seg, m2, s2)) :
    seg.start_pos = m.position ∧ m2.position = seg.end_pos := by
  unfold processLine at h
  split_ifs at h with h1 h2 <;>
    simp only [Option.some.injEq, Prod.mk.injEq] at h
  · exact Option.noConfusion h.1
  · obtain ⟨hseg, hm2, _⟩ := h
    obtain ⟨hst, hen⟩ := emittedSeg_spec _ _ _ _ _ hseg
    constructor
    · rw [hst]
      exact modalSteps_position tk m
    · rw [← hm2, hen]

/-- A line that emits no segment leaves the position unchanged, as long as
the motion mode invariant holds. -/
theorem processLine_noemit (m : ModalState) (s : ℚ) (tk : TokLine)
    (m2 : ModalState) (s2 : ℚ) (hmo : motionOK m)
    (h : processLine m s tk = some (none, m2, s2)) :
    m2.position = m.position := by
  unfold processLine at h
  split_ifs at h with h1 h2 <;>
    simp only [Option.some.injEq, Prod.mk.injEq] at h
  · rw [← h.2.1]
    exact modalSteps_position tk m
  · exfalso
    have hs := emittedSeg_isSome (modalSteps tk m)
      (endPosition (modalSteps tk m) tk (scaleG tk s)) tk (scaleG tk s)
      (modalSteps_motion tk m hmo)
    rw [h.1] at hs
    exact Bool.noConfusion hs

/-- The motion mode invariant is preserved across a processed line. -/
theorem processLine_motion (m : ModalState) (s : ℚ) (tk : TokLine)
    (o : Option LSeg) (m2 : ModalState) (s2 : ℚ) (hmo : motionOK m)
    (h : processLine m s tk = some (o, m2, s2)) :
    motionOK m2 := by
  have h5 := modalSteps_motion tk m hmo
  unfold processLine at h
  split_ifs at h with h1 h2 <;>
    simp only [Option.some.injEq, Prod.mk.injEq] at h <;>
    (rw [← h.2.1]; exact h5)

/-- A segment list is a continuous path from a point: every segment starts
where the previous one ends, and the first segment starts at the point. -/
def ChainedFrom (init : V3 ℚ) (segs : List LSeg) : Prop :=
  List.Chain' (fun a b => b.start_pos = a.end_pos) segs ∧
  ∀ s ∈ segs.head?, s.start_pos = init

/-- The same continuity property for the AST parser's segments. -/
def ChainedFromNew (init : V3 ℚ) (segs : List ToolpathSegment) : Prop :=
  List.Chain' (fun a b => b.start_pos = a.end_pos) segs ∧
  ∀ s ∈ segs.head?, s.start_pos = init

theorem chainedFrom_cons (x : V3 ℚ) (seg : LSeg) (l : List LSeg)
    (hs : seg.start_pos = x) (hl : ChainedFrom seg.end_pos l) :
    ChainedFrom x (seg :: l) := by
  obtain ⟨hc, hh⟩ := hl
  refine ⟨List.chain'_cons'.mpr ⟨hh, hc⟩, ?_⟩
  intro s hmem
  simp only [List.head?_cons, Option.mem_def, Option.some.injEq] at hmem
  rw [← hmem]
  exact hs

theorem chainedFromNew_cons (x : V3 ℚ) (seg : ToolpathSegment)
    (l : List ToolpathSegment) (hs : seg.start_pos = x)
    (hl : ChainedFromNew seg.end_pos l) :
    ChainedFromNew x (seg :: l) := by
  obtain ⟨hc, hh⟩ := hl
  refine ⟨List.chain'_cons'.mpr ⟨hh, hc⟩, ?_⟩
  intro s hmem
  simp only [List.head?_cons, Option.mem_def, Option.some.injEq] at hmem
  rw [← hmem]
  exact hs

theorem parseLinesAux_chained (lines : List TokLine) :
    ∀ (modal : ModalState) (scale : ℚ), motionOK modal →
      ChainedFrom modal.position (parseLinesAux modal scale lines) := by
  induction lines with
  | nil =>
    intro modal scale _
    exact ⟨List.chain'_nil, by simp [parseLinesAux]⟩
  | cons tk rest ih =>
    intro modal scale hmo
    rw [parseLinesAux]
    split_ifs with hemp
    · exact ih modal scale hmo
    · rcases hpl : processLine modal scale tk with _ | ⟨o, m2, s2⟩
      · exact ⟨List.chain'_nil, by simp⟩
      · rcases o with _ | seg
        · have h1 := processLine_noemit modal scale tk m2 s2 hmo hpl
          have h2 := processLine_motion modal scale tk none m2 s2 hmo hpl
          have := ih m2 s2 h2
          rw [h1] at this
          exact this
        · obtain ⟨hstart, hend⟩ := processLine_emit modal scale tk seg m2 s2 hpl
          have h2 := processLine_motion modal scale tk (some seg) m2 s2 hmo hpl
          have hrest := ih m2 s2 h2
          rw [hend] at hrest
          exact chainedFrom_cons _ _ _ hstart hrest

theorem create_segment_start (move : MotionCommand) (p : V3 ℚ)
    (modal : ModalStateNode) (b : Option ℤ) :
    (create_segment_from_move move p modal b).start_pos = p := by
  cases move <;> rfl

theorem interpret_chained (blocks : List BlockNode) :
    ∀ (modal : ModalStateNode) (position : V3 ℚ),
      ChainedFromNew position (interpret_to_segments modal position blocks) := by
  induction blocks with
  | nil =>
    intro modal position
    exact ⟨List.chain'_nil, by simp [interpret_to_segments]⟩
  | cons block rest ih =>
    intro modal position
    rw [interpret_to_segments]
    split_ifs with hskip
    · exact ih modal position
    · rcases hsc : scanWords
          ⟨modal, none, none, none, none, none, none, none, none⟩
          block.words with _ | acc
      · exact ⟨List.chain'_nil, by simp⟩
      · simp only []
        split_ifs with hmot hco hm0 hm1
        · exact ih acc.modal position
        · exact chainedFromNew_cons _ _ _ (create_segment_start _ _ _ _) (ih _ _)
        · exact chainedFromNew_cons _ _ _ (create_segment_start _ _ _ _) (ih _ _)
        · exact chainedFromNew_cons _ _ _ (create_segment_start _ _ _ _) (ih _ _)
        · exact ih acc.modal position

/-- C1: for every G-code input, the emitted toolpath segment list is
continuous — for all i greater than 0, segment i starts exactly where
segment i-1 ends (componentwise, as an equality of exact coordinates), and
the first segment starts at the initial position.  This holds both for the
legacy parser (parse_string, from any initial position) and for the AST
interpreter (interpret_to_segments, which starts at the origin with the
default modal state). -/
theorem C1_continuity :
    (∀ (content : String) (init : V3 ℚ) (metric : Bool),
        ChainedFrom init (parse_string content init metric)) ∧
    (∀ blocks : List BlockNode,
        ChainedFromNew ⟨0, 0, 0⟩
          (interpret_to_segments ModalStateNode.init ⟨0, 0, 0⟩ blocks)) := by
  constructor
  · intro content init metric
    have h := parseLinesAux_chained
      ((splitlines content.toList).map _tokenize_line)
      (ModalState.init init) (if metric then 1 else (254 / 10 : ℚ))
      (Or.inr (Or.inl rfl))
    exact h
  · intro blocks
    exact interpret_chained blocks ModalStateNode.init ⟨0, 0, 0⟩

/- ============================================================
   Claim C3
   ============================================================ -/

/-- C3: the block G91 G1 X5 parsed twice from the origin.  The claim (spec
Scenario C) expects two linear segments whose second runs from (5,0,0) to
(10,0,0).  The legacy parser fails this: _tokenize_line stores the words of a
line in a dict keyed by the address letter, so the later G1 overwrites the
G91 in the same line, the machine stays in absolute mode, and the second
segment ends at (5,0,0) instead.  The AST-based interpreter applies every G
word of the block in order and produces exactly the claimed segments.  Both
facts are established here by evaluation. -/
theorem C3_incremental_same_line :
    ((parse_string "G91 G1 X5\nG91 G1 X5" ⟨0, 0, 0⟩ true).map
        fun s => (s.seg_type, s.start_pos, s.end_pos)) =
      [(SegType.linear, ⟨0, 0, 0⟩, ⟨5, 0, 0⟩),
       (SegType.linear, ⟨5, 0, 0⟩, ⟨5, 0, 0⟩)] ∧
    ((interpret_to_segments ModalStateNode.init ⟨0, 0, 0⟩
        [⟨none, [.gcode 91, .gcode 1, .coord 'X' 5], false⟩,
         ⟨none, [.gcode 91, .gcode 1, .coord 'X' 5], false⟩]).map
        fun s => (s.motion_type, s.start_pos, s.end_pos)) =
      [(SegType.linear, ⟨0, 0, 0⟩, ⟨5, 0, 0⟩),
       (SegType.linear, ⟨5, 0, 0⟩, ⟨10, 0, 0⟩)] := by
  constructor
  · with_unfolding_all decide
  · with_unfolding_all decide

/- ============================================================
   Claim C9
   ============================================================ -/

/-- A line carrying M2 or M30 is not an empty token dict. -/
theorem progEnd_not_empty (tk : TokLine) (h : tk.progEnd = true) :
    tk.isEmptyTok = false := by
  unfold TokLine.progEnd at h
  unfold TokLine.isEmptyTok
  rcases hM : tk.M with _ | mv
  · rw [hM] at h
    cases h
  · simp

/-- A line carrying M2 or M30 breaks the legacy interpretation loop. -/
theorem processLine_progEnd (m : ModalState) (s : ℚ) (tk : TokLine)
    (h : tk.progEnd = true) : processLine m s tk = none := by
  unfold processLine
  rw [if_pos h]

/-- A word node that int-truncates to M2 or M30. -/
def isProgEndWord : WordNode → Prop
  | .mcode v => ratTrunc v = 2 ∨ ratTrunc v = 30
  | _ => False

/-- A block containing an M2/M30 word makes the word scan signal program
end, whatever was accumulated before. -/
theorem scanWords_progEnd (words : List WordNode) :
    ∀ acc : BlockScan, (∃ w ∈ words, isProgEndWord w) →
      scanWords acc words = none := by
  induction words with
  | nil =>
    rintro acc ⟨w, hw, _⟩
    cases hw
  | cons w rest ih =>
    rintro acc ⟨w0, hw0, hpe⟩
    rcases List.mem_cons.mp hw0 with h | h
    · subst h
      cases w0 with
      | mcode v =>
        have hv : ratTrunc v = 2 ∨ ratTrunc v = 30 := hpe
        simp only [scanWords]
        rw [if_pos hv]
      | gcode v => cases hpe
      | coord letter v => cases hpe
      | feed v => cases hpe
      | spindle v => cases hpe
      | tool v => cases hpe
    · cases w with
      | mcode v =>
        simp only [scanWords]
        split_ifs with hv
        · rfl
        · exact ih _ ⟨w0, h, hpe⟩
      | gcode v =>
        simp only [scanWords]
        exact ih _ ⟨w0, h, hpe⟩
      | coord letter v =>
        simp only [scanWords]
        split_ifs <;> exact ih _ ⟨w0, h, hpe⟩
      | feed v =>
        simp only [scanWords]
        exact ih _ ⟨w0, h, hpe⟩
      | spindle v =>
        simp only [scanWords]
        exact ih _ ⟨w0, h, hpe⟩
      | tool v =>
        simp only [scanWords]
        exact ih _ ⟨w0, h, hpe⟩

/-- C9: when an M2 or M30 word is reached during interpretation, the
interpretation stops on the spot: the segments already emitted for the lines
(or blocks) before it are returned unchanged, and neither the terminating
line (block) nor anything after it emits a segment.  This holds for the
legacy parser loop and for the AST interpreter (whose M2/M30 block must not
carry the block-skip flag, since skipped blocks are never interpreted). -/
theorem C9_program_end (modal : ModalState) (scale : ℚ)
    (l1 l2 : List TokLine) (tk : TokLine) (hM : tk.progEnd = true)
    (nmodal : ModalStateNode) (pos : V3 ℚ)
    (b1 b2 : List BlockNode) (bm : BlockNode) (hskip : bm.block_skip = false)
    (hw : ∃ w ∈ bm.words, isProgEndWord w) :
    parseLinesAux modal scale (l1 ++ tk :: l2) =
      parseLinesAux modal scale l1 ∧
    interpret_to_segments nmodal pos (b1 ++ bm :: b2) =
      interpret_to_segments nmodal pos b1 := by
  constructor
  · induction l1 generalizing modal scale with
    | nil =>
      rw [List.nil_append, parseLinesAux, parseLinesAux]
      rw [progEnd_not_empty tk hM]
      simp only [Bool.false_eq_true, if_false]
      rw [processLine_progEnd modal scale tk hM]
    | cons t rest ih =>
      rw [List.cons_append, parseLinesAux, parseLinesAux]
      split_ifs with hemp
      · exact ih modal scale
      · rcases hpl : processLine modal scale t with _ | ⟨o, m2, s2⟩
        · rfl
        · rcases o with _ | seg
          · exact ih m2 s2
          · exact congrArg (fun l => seg :: l) (ih m2 s2)
  · induction b1 generalizing nmodal pos with
    | nil =>
      rw [List.nil_append, interpret_to_segments, interpret_to_segments]
      rw [hskip]
      simp only [Bool.false_eq_true, if_false]
      rw [scanWords_progEnd bm.words _ hw]
    | cons b rest ih =>
      rw [List.cons_append, interpret_to_segments, interpret_to_segments]
      split_ifs with hsk
      · exact ih nmodal pos
      · rcases hsc : scanWords
            ⟨nmodal, none, none, none, none, none, none, none, none⟩
            b.words with _ | acc
        · rfl
        · simp only []
          split_ifs with hmot hco hm0 hm1
          · exact ih acc.modal pos
          · exact congrArg _ (ih _ _)
          · exact congrArg _ (ih _ _)
          · exact congrArg _ (ih _ _)
          · exact ih acc.modal pos

/-- Witness for C9 at concrete inputs: one line G1 X5, then M30, then G1 X9;
only the first segment survives, identically in both pipelines. -/
theorem C9_program_end_witness :
    (parseLinesAux (ModalState.init ⟨0, 0, 0⟩) 1
        ([{ G := some 1, X := some 5 }] ++
          { M := some 30 } :: [{ G := some 1, X := some 9 }]) =
      parseLinesAux (ModalState.init ⟨0, 0, 0⟩) 1 [{ G := some 1, X := some 5 }]) ∧
    (interpret_to_segments ModalStateNode.init ⟨0, 0, 0⟩
        ([⟨none, [.gcode 1, .coord 'X' 5], false⟩] ++
          ⟨none, [.mcode 30], false⟩ :: [⟨none, [.gcode 1, .coord 'X' 9], false⟩]) =
      interpret_to_segments ModalStateNode.init ⟨0, 0, 0⟩
        [⟨none, [.gcode 1, .coord 'X' 5], false⟩]) := by
  exact C9_program_end (ModalState.init ⟨0, 0, 0⟩) 1
    [{ G := some 1, X := some 5 }] [{ G := some 1, X := some 9 }]
    { M := some 30 } (by with_unfolding_all decide)
    ModalStateNode.init ⟨0, 0, 0⟩
    [⟨none, [.gcode 1, .coord 'X' 5], false⟩]
    [⟨none, [.gcode 1, .coord 'X' 9], false⟩]
    ⟨none, [.mcode 30], false⟩ rfl
    ⟨.mcode 30, by simp,
      show ratTrunc 30 = 2 ∨ ratTrunc 30 = 30 from
        Or.inr (by with_unfolding_all decide)⟩

/- ============================================================
   simulation/stock_model.py : the tri-dexel height-field board
   ============================================================ -/

/-- ToolType from simulation/stock_model.py. -/
inductive ToolType where
  | FLAT_ENDMILL
  | BALL_ENDMILL
  | BULLNOSE
  deriving DecidableEq

/-- Tool from simulation/stock_model.py; radius = diameter / 2. -/
structure Tool where
  tool_id : ℤ
  name : String
  tool_type : ToolType
  diameter : ℝ
  length : ℝ
  corner_radius : ℝ

noncomputable def Tool.radius (t : Tool) : ℝ :=
  t.diameter / 2

/-- StockConfig from simulation/stock_model.py (the max_grid_cells field is
never read by the modelled methods). -/
structure StockConfig where
  width : ℝ
  depth : ℝ
  height : ℝ
  resolution : ℝ
  origin_x : ℝ
  origin_y : ℝ
  origin_z : ℝ

/-- Truncation toward zero on the reals: the Python builtin int() applied to
a float. -/
noncomputable def realTrunc (r : ℝ) : ℤ :=
  if 0 ≤ r then ⌊r⌋ else ⌈r⌉

/-- np.clip of a scalar: min(hi, max(v, lo)). -/
def intClip (v lo hi : ℤ) : ℤ :=
  min hi (max v lo)

noncomputable def StockConfig.nx (c : StockConfig) : ℤ :=
  min (realTrunc (c.width / c.resolution) + 1) 500

noncomputable def StockConfig.ny (c : StockConfig) : ℤ :=
  min (realTrunc (c.depth / c.resolution) + 1) 500

noncomputable def StockConfig.nz (c : StockConfig) : ℤ :=
  min (realTrunc (c.height / c.resolution) + 1) 200

/-- TriDexelBoard from simulation/stock_model.py.  The grid arrays are
modelled as total functions on integer indices; every access of the modelled
methods is bounds-checked or clipped exactly as in the source, so values
outside the allocated range are never read.  The xz/yz side boards are
initialized by the constructor and never written or read afterwards. -/
structure TriDexelBoard where
  config : StockConfig
  xy_board : ℤ → ℤ → ℝ
  xz_board : ℤ → ℤ → ℝ
  yz_board : ℤ → ℤ → ℝ
  total_removed_volume : ℝ
  cut_points : List (ℝ × ℝ × ℝ)

/-- The TriDexelBoard constructor: the XY board is filled with the stock top
origin_z + height; the side boards with the far Y and X faces. -/
noncomputable def TriDexelBoard.init (config : StockConfig) : TriDexelBoard :=
  { config := config
    xy_board := fun _ _ => config.origin_z + config.height
    xz_board := fun _ _ => config.origin_y + config.depth
    yz_board := fun _ _ => config.origin_x + config.width
    total_removed_volume := 0
    cut_points := [] }

/-- TriDexelBoard.world_to_grid: floor-toward-zero conversion to grid
indices, clipped to the grid bounds. -/
noncomputable def TriDexelBoard.world_to_grid (b : TriDexelBoard)
    (x y z : ℝ) : ℤ × ℤ × ℤ :=
  (intClip (realTrunc ((x - b.config.origin_x) / b.config.resolution)) 0 (b.config.nx - 1),
   intClip (realTrunc ((y - b.config.origin_y) / b.config.resolution)) 0 (b.config.ny - 1),
   intClip (realTrunc ((z - b.config.origin_z) / b.config.resolution)) 0 (b.config.nz - 1))

/-- TriDexelBoard.grid_to_world. -/
noncomputable def TriDexelBoard.grid_to_world (b : TriDexelBoard)
    (gx gy gz : ℤ) : ℝ × ℝ × ℝ :=
  (b.config.origin_x + gx * b.config.resolution,
   b.config.origin_y + gy * b.config.resolution,
   b.config.origin_z + gz * b.config.resolution)

/-- TriDexelBoard.get_height_at: the stored top height of the column whose
clipped grid cell contains the world point. -/
noncomputable def TriDexelBoard.get_height_at (b : TriDexelBoard)
    (x y : ℝ) : ℝ :=
  b.xy_board (b.world_to_grid x y 0).1 (b.world_to_grid x y 0).2.1

/-- The dx values -grid_radius .. grid_radius of the apply_cutter loop (an
empty range when grid_radius is negative, as in Python). -/
def offsetRange (grid_radius : ℤ) : List ℤ :=
  (List.range (2 * grid_radius + 1).toNat).map fun k => -grid_radius + k

/-- The (dx, dy) pairs visited by the nested apply_cutter loops, in order. -/
def offsetPairs (grid_radius : ℤ) : List (ℤ × ℤ) :=
  (offsetRange grid_radius).flatMap fun dx =>
    (offsetRange grid_radius).map fun dy => (dx, dy)

/-- The effective cutting height at a cell: the tool tip height, raised by
the spherical sag for a ball endmill (the difference under the square root
is clamped at 0, as in the source). -/
noncomputable def effectiveCutZ (z_cut radius_sq dist_sq : ℝ)
    (tool : Tool) : ℝ :=
  if tool.tool_type = ToolType.BALL_ENDMILL then
    z_cut + Real.sqrt (max 0 (radius_sq - dist_sq))
  else z_cut

/-- The squared world distance from the cell center (cx, cy) to the cutter
position (x, y). -/
noncomputable def cellDistSq (c : StockConfig) (x y : ℝ) (cx cy : ℤ) : ℝ :=
  (c.origin_x + cx * c.resolution - x) ^ 2 +
  (c.origin_y + cy * c.resolution - y) ^ 2

/-- One grid cell visited by apply_cutter: when the cell lies in bounds and
its world center is within the tool radius (squared-distance filter), and
the effective cutting height is below the stored column height, the column
is lowered to that height but never below the stock floor origin_z, and the
removed height accumulates.  The state is the pair (total_removed,
xy_board). -/
noncomputable def cutterCell (b : TriDexelBoard) (x y z_cut radius_sq : ℝ)
    (tool : Tool) (gx gy : ℤ) (acc : ℝ × (ℤ → ℤ → ℝ)) (d : ℤ × ℤ) :
    ℝ × (ℤ → ℤ → ℝ) :=
  if gx + d.1 < 0 ∨ b.config.nx ≤ gx + d.1 ∨
      gy + d.2 < 0 ∨ b.config.ny ≤ gy + d.2 then acc
  else if cellDistSq b.config x y (gx + d.1) (gy + d.2) ≤ radius_sq then
    if effectiveCutZ z_cut radius_sq
        (cellDistSq b.config x y (gx + d.1) (gy + d.2)) tool <
        acc.2 (gx + d.1) (gy + d.2) then
      (acc.1 + (acc.2 (gx + d.1) (gy + d.2) -
          max (effectiveCutZ z_cut radius_sq
            (cellDistSq b.config x y (gx + d.1) (gy + d.2)) tool)
            b.config.origin_z),
       fun a bIdx =>
         if a = gx + d.1 ∧ bIdx = gy + d.2 then
           max (effectiveCutZ z_cut radius_sq
             (cellDistSq b.config x y (gx + d.1) (gy + d.2)) tool)
             b.config.origin_z
         else acc.2 a bIdx)
    else acc
  else acc

/-- TriDexelBoard.apply_cutter: a no-op returning 0 when the passed z is at
or above the stock top (note: the guard tests z itself, not the tool tip
z - length); otherwise every grid cell within the radius of (x, y) is
lowered to the effective cutting height, the removed column heights times
resolution squared accumulate into the returned volume and the running
total, and the position is recorded as a cut point when anything was
removed.  Returns the removed volume and the updated board. -/
noncomputable def TriDexelBoard.apply_cutter (b : TriDexelBoard)
    (x y z : ℝ) (tool : Tool) : ℝ × TriDexelBoard :=
  if b.config.origin_z + b.config.height ≤ z then (0, b)
  else
    let radius := tool.radius
    let z_cut := z - tool.length
    let gx := (b.world_to_grid x y 0).1
    let gy := (b.world_to_grid x y 0).2.1
    let grid_radius := realTrunc (radius / b.config.resolution) + 1
    let radius_sq := radius * radius
    let out := (offsetPairs grid_radius).foldl
      (cutterCell b x y z_cut radius_sq tool gx gy) (0, b.xy_board)
    let removed_volume := out.1 * b.config.resolution ^ 2
    (removed_volume,
     { b with
       xy_board := out.2
       total_removed_volume := b.total_removed_volume + removed_volume
       cut_points :=
         if 0 < out.1 then b.cut_points ++ [(x, y, z)] else b.cut_points })

/-- The eight ring angles sampled by is_air_cut. -/
noncomputable def airCutAngles : List ℝ :=
  [0, Real.pi / 4, Real.pi / 2, 3 * Real.pi / 4, Real.pi,
   5 * Real.pi / 4, 3 * Real.pi / 2, 7 * Real.pi / 4]

/-- The ring-sample loop of is_air_cut: cutting (false) as soon as one
sampled column's height is at or above the tool tip height z_cut. -/
noncomputable def airCutLoop (b : TriDexelBoard) (x y z_cut radius : ℝ) :
    List ℝ → Bool
  | [] => true
  | angle :: rest =>
    if z_cut ≤ b.get_height_at (x + radius * 0.5 * Real.cos angle)
        (y + radius * 0.5 * Real.sin angle) then false
    else airCutLoop b x y z_cut radius rest

/-- TriDexelBoard.is_air_cut: samples eight points on a ring of half the
tool radius around (x, y); the position is an air cut exactly when no
sampled column reaches up to the tool tip. -/
noncomputable def TriDexelBoard.is_air_cut (b : TriDexelBoard)
    (x y z : ℝ) (tool : Tool) : Bool :=
  airCutLoop b x y (z - tool.length) tool.radius airCutAngles

/- ============================================================
   Claim C2
   ============================================================ -/

theorem airCutLoop_iff (b : TriDexelBoard) (x y z_cut radius : ℝ)
    (l : List ℝ) :
    airCutLoop b x y z_cut radius l = true ↔
      ∀ a ∈ l, b.get_height_at (x + radius * 0.5 * Real.cos a)
        (y + radius * 0.5 * Real.sin a) < z_cut := by
  induction l with
  | nil => simp [airCutLoop]
  | cons angle rest ih =>
    rw [airCutLoop]
    split_ifs with hc
    · simp only [Bool.false_eq_true, false_iff]
      intro hall
      exact absurd (hall angle (List.mem_cons_self _ _)) (not_lt.mpr hc)
    · have hp := not_le.mp hc
      rw [List.forall_mem_cons, ih]
      simp [hp]

/-- C2 (amended): is_air_cut returns true exactly when every one of the
eight sampled ring columns stores a height strictly below the tool tip
height z - length; equivalently, it classifies the position as cutting
(false) exactly when some sampled column's height is at or above the tip. -/
theorem C2_air_cut_iff (b : TriDexelBoard) (x y z : ℝ) (tool : Tool) :
    b.is_air_cut x y z tool = true ↔
      ∀ a ∈ airCutAngles,
        b.get_height_at (x + tool.radius * 0.5 * Real.cos a)
          (y + tool.radius * 0.5 * Real.sin a) < z - tool.length := by
  unfold TriDexelBoard.is_air_cut
  exact airCutLoop_iff b x y (z - tool.length) tool.radius airCutAngles

/-- The default StockConfig of the source (100 x 100 x 50 stock, resolution
2, origin at (-50, -50, 0)). -/
noncomputable def sampleStockConfig : StockConfig :=
  ⟨100, 100, 50, 2, -50, -50, 0⟩

noncomputable def sampleBoard : TriDexelBoard :=
  TriDexelBoard.init sampleStockConfig

/-- A 10 mm flat endmill of length 10. -/
noncomputable def sampleTool : Tool :=
  ⟨1, "Flat10", ToolType.FLAT_ENDMILL, 10, 10, 0⟩

/-- C2 (counterexample to the claim as stated): on a fresh default board
every column stores height 50, so with the tool at z = 0 every sampled
column's height is at or above the tool tip height -10; the claim then says
the position is classified as an air cut, but is_air_cut returns false
(cutting).  The claim's direction is inverted relative to the code. -/
theorem C2_counterexample :
    (∀ a ∈ airCutAngles,
      (0 : ℝ) - sampleTool.length ≤
        sampleBoard.get_height_at (0 + sampleTool.radius * 0.5 * Real.cos a)
          (0 + sampleTool.radius * 0.5 * Real.sin a)) ∧
    sampleBoard.is_air_cut 0 0 0 sampleTool = false := by
  have hh : ∀ sx sy : ℝ, sampleBoard.get_height_at sx sy = 50 := by
    intro sx sy
    simp [sampleBoard, TriDexelBoard.get_height_at, TriDexelBoard.init,
      sampleStockConfig]
  constructor
  · intro a _
    rw [hh]
    norm_num [sampleTool]
  · unfold TriDexelBoard.is_air_cut airCutAngles airCutLoop
    rw [hh]
    rw [if_pos]
    norm_num [sampleTool]

/- ============================================================
   Claims C5 and C10
   ============================================================ -/

/-- The state of one cutter pass over one cell only ever lowers columns,
keeps them at or above the stock floor, and only grows the removed total. -/
theorem cutterCell_step (b : TriDexelBoard) (x y z_cut radius_sq : ℝ)
    (tool : Tool) (gx gy : ℤ) (acc : ℝ × (ℤ → ℤ → ℝ)) (d : ℤ × ℤ)
    (hoz : ∀ i j, b.config.origin_z ≤ acc.2 i j) :
    acc.1 ≤ (cutterCell b x y z_cut radius_sq tool gx gy acc d).1 ∧
    ∀ i j, b.config.origin_z ≤
        (cutterCell b x y z_cut radius_sq tool gx gy acc d).2 i j ∧
      (cutterCell b x y z_cut radius_sq tool gx gy acc d).2 i j ≤ acc.2 i j := by
  unfold cutterCell
  split_ifs with h1 h2 h3
  · exact ⟨le_refl _, fun i j => ⟨hoz i j, le_refl _⟩⟩
  · refine ⟨?_, ?_⟩
    · have hold := hoz (gx + d.1) (gy + d.2)
      have hnew : max (effectiveCutZ z_cut radius_sq
            (cellDistSq b.config x y (gx + d.1) (gy + d.2)) tool)
            b.config.origin_z ≤ acc.2 (gx + d.1) (gy + d.2) :=
        max_le (le_of_lt h3) hold
      simp only []
      linarith
    · intro i j
      by_cases hij : i = gx + d.1 ∧ j = gy + d.2
      · simp only []
        rw [if_pos hij]
        obtain ⟨hi, hj⟩ := hij
        constructor
        · exact le_max_right _ _
        · rw [hi, hj]
          exact max_le (le_of_lt h3) (hoz _ _)
      · simp only []
        rw [if_neg hij]
        exact ⟨hoz i j, le_refl _⟩
  · exact ⟨le_refl _, fun i j => ⟨hoz i j, le_refl _⟩⟩
  · exact ⟨le_refl _, fun i j => ⟨hoz i j, le_refl _⟩⟩

/-- The cell fold of apply_cutter: non-decreasing removed total, columns at
or above the stock floor, columns never raised. -/
theorem cutterCell_foldl_spec (b : TriDexelBoard) (x y z_cut radius_sq : ℝ)
    (tool : Tool) (gx gy : ℤ) (l : List (ℤ × ℤ)) :
    ∀ acc : ℝ × (ℤ → ℤ → ℝ), (∀ i j, b.config.origin_z ≤ acc.2 i j) →
      acc.1 ≤ (l.foldl (cutterCell b x y z_cut radius_sq tool gx gy) acc).1 ∧
      ∀ i j, b.config.origin_z ≤
          (l.foldl (cutterCell b x y z_cut radius_sq tool gx gy) acc).2 i j ∧
        (l.foldl (cutterCell b x y z_cut radius_sq tool gx gy) acc).2 i j ≤
          acc.2 i j := by
  induction l with
  | nil => exact fun acc hoz => ⟨le_refl _, fun i j => ⟨hoz i j, le_refl _⟩⟩
  | cons d rest ih =>
    intro acc hoz
    have hstep := cutterCell_step b x y z_cut radius_sq tool gx gy acc d hoz
    have hoz2 : ∀ i j, b.config.origin_z ≤
        (cutterCell b x y z_cut radius_sq tool gx gy acc d).2 i j :=
      fun i j => (hstep.2 i j).1
    have hrest := ih _ hoz2
    refine ⟨le_trans hstep.1 hrest.1, fun i j => ?_⟩
    exact ⟨(hrest.2 i j).1, le_trans (hrest.2 i j).2 (hstep.2 i j).2⟩

/-- One apply_cutter call: the returned volume is non-negative, no column
rises, columns stay at or above the stock floor, and the configuration is
untouched. -/
theorem apply_cutter_spec (b : TriDexelBoard) (x y z : ℝ) (tool : Tool)
    (hoz : ∀ i j, b.config.origin_z ≤ b.xy_board i j) :
    0 ≤ (b.apply_cutter x y z tool).1 ∧
    (∀ i j, (b.apply_cutter x y z tool).2.xy_board i j ≤ b.xy_board i j) ∧
    (∀ i j, b.config.origin_z ≤ (b.apply_cutter x y z tool).2.xy_board i j) ∧
    (b.apply_cutter x y z tool).2.config = b.config := by
  unfold TriDexelBoard.apply_cutter
  split_ifs with hz
  · exact ⟨le_refl _, fun i j => le_refl _, hoz, rfl⟩
  · have hfold := cutterCell_foldl_spec b x y (z - tool.length)
      (tool.radius * tool.radius) tool (b.world_to_grid x y 0).1
      (b.world_to_grid x y 0).2.1
      (offsetPairs (realTrunc (tool.radius / b.config.resolution) + 1))
      (0, b.xy_board) hoz
    refine ⟨?_, fun i j => (hfold.2 i j).2, fun i j => (hfold.2 i j).1, rfl⟩
    exact mul_nonneg hfold.1 (sq_nonneg _)

/-- A sequence of apply_cutter calls, returning the removed volume of every
call together with the final board. -/
noncomputable def applyCutterSeq :
    TriDexelBoard → List (ℝ × ℝ × ℝ × Tool) → List ℝ × TriDexelBoard
  | b, [] => ([], b)
  | b, c :: rest =>
    ((b.apply_cutter c.1 c.2.1 c.2.2.1 c.2.2.2).1 ::
        (applyCutterSeq (b.apply_cutter c.1 c.2.1 c.2.2.1 c.2.2.2).2 rest).1,
      (applyCutterSeq (b.apply_cutter c.1 c.2.1 c.2.2.1 c.2.2.2).2 rest).2)

theorem applyCutterSeq_spec (calls : List (ℝ × ℝ × ℝ × Tool)) :
    ∀ b : TriDexelBoard, (∀ i j, b.config.origin_z ≤ b.xy_board i j) →
      (∀ i j, (applyCutterSeq b calls).2.xy_board i j ≤ b.xy_board i j) ∧
      (∀ i j, b.config.origin_z ≤ (applyCutterSeq b calls).2.xy_board i j) ∧
      (applyCutterSeq b calls).2.config = b.config ∧
      ∀ v ∈ (applyCutterSeq b calls).1, 0 ≤ v := by
  induction calls with
  | nil =>
    intro b hoz
    exact ⟨fun i j => le_refl _, hoz, rfl, by simp [applyCutterSeq]⟩
  | cons c rest ih =>
    intro b hoz
    have hone := apply_cutter_spec b c.1 c.2.1 c.2.2.1 c.2.2.2 hoz
    have hoz2 : ∀ i j,
        (b.apply_cutter c.1 c.2.1 c.2.2.1 c.2.2.2).2.config.origin_z ≤
          (b.apply_cutter c.1 c.2.1 c.2.2.1 c.2.2.2).2.xy_board i j := by
      intro i j
      rw [hone.2.2.2]
      exact hone.2.2.1 i j
    have hrest := ih _ hoz2
    rw [hone.2.2.2] at hrest
    refine ⟨?_, ?_, ?_, ?_⟩
    · intro i j
      rw [applyCutterSeq]
      exact le_trans (hrest.1 i j) (hone.2.1 i j)
    · intro i j
      rw [applyCutterSeq]
      exact hrest.2.1 i j
    · rw [applyCutterSeq]
      exact hrest.2.2.1
    · intro v hv
      rw [applyCutterSeq] at hv
      rcases List.mem_cons.mp hv with h | h
      · rw [h]
        exact hone.1
      · exact hrest.2.2.2 v h

/-- C5: starting from a freshly initialized board of any stock configuration
with non-negative height, after any sequence of apply_cutter calls no grid
cell's stored height exceeds its initial value (heights are monotonically
non-increasing over a simulation run), and every call in the sequence
returned a removed volume greater than or equal to zero. -/
theorem C5_monotonic_removal (config : StockConfig)
    (calls : List (ℝ × ℝ × ℝ × Tool)) (hh : 0 ≤ config.height) :
    (∀ i j, (applyCutterSeq (TriDexelBoard.init config) calls).2.xy_board i j ≤
        (TriDexelBoard.init config).xy_board i j) ∧
    ∀ v ∈ (applyCutterSeq (TriDexelBoard.init config) calls).1, 0 ≤ v := by
  have hoz : ∀ i j, (TriDexelBoard.init config).config.origin_z ≤
      (TriDexelBoard.init config).xy_board i j := by
    intro i j
    simp only [TriDexelBoard.init]
    linarith
  have h := applyCutterSeq_spec calls (TriDexelBoard.init config) hoz
  exact ⟨h.1, h.2.2.2⟩

/-- Witness for C5: the default stock with one concrete cutter pass; the
cell (0,0) does not rise and the first returned volume is non-negative. -/
theorem C5_monotonic_removal_witness :
    (applyCutterSeq (TriDexelBoard.init sampleStockConfig)
        [(0, 0, 10, sampleTool)]).2.xy_board 0 0 ≤
      (TriDexelBoard.init sampleStockConfig).xy_board 0 0 :=
  (C5_monotonic_removal sampleStockConfig [(0, 0, 10, sampleTool)]
    (by norm_num [sampleStockConfig])).1 0 0

/-- C10: whenever apply_cutter is called with z at or above the stock top
origin_z + height, the call returns removed volume 0 and leaves the board
completely unchanged (grid, running total and cut points), whatever the tool
is — in particular even when the effective cutting height z - tool.length
would lie below the stock top, because the guard tests the passed z rather
than the tool tip height. -/
theorem C10_above_stock_guard (b : TriDexelBoard) (x y z : ℝ) (tool : Tool)
    (h : b.config.origin_z + b.config.height ≤ z) :
    b.apply_cutter x y z tool = (0, b) := by
  unfold TriDexelBoard.apply_cutter
  rw [if_pos h]

/-- Witness for C10: the default 50-tall stock with z = 50 at the top and a
tool of length 10, whose tip 50 - 10 = 40 is well inside the stock; the call
is still a no-op. -/
theorem C10_above_stock_guard_witness :
    sampleBoard.apply_cutter 0 0 50 sampleTool = (0, sampleBoard) :=
  C10_above_stock_guard sampleBoard 0 0 50 sampleTool
    (by norm_num [sampleBoard, TriDexelBoard.init, sampleStockConfig])

/- ============================================================
   core/kinematics.py : arc sampling (segment_to_points)
   ============================================================ -/

/-- np.arctan2 y x, embedded as the argument of the complex number
x + y i. -/
noncomputable def atan2 (y x : ℝ) : ℝ :=
  Complex.arg ⟨x, y⟩

/-- The unwrapped end angle of an arc: for a clockwise arc a naive end angle
at or above the start angle is pulled down by a full turn, for a
counter-clockwise arc a naive end angle at or below the start angle is
pushed up by a full turn. -/
noncomputable def arcAngle (start_angle raw_end : ℝ) (clockwise : Bool) : ℝ :=
  if clockwise then
    if start_angle ≤ raw_end then raw_end - 2 * Real.pi else raw_end
  else
    if raw_end ≤ start_angle then raw_end + 2 * Real.pi else raw_end

/-- The i-th of n evenly spaced samples of [0, 1], endpoints included
(np.linspace(0, 1, n)). -/
noncomputable def linspace01 (n i : ℕ) : ℝ :=
  (i : ℝ) / ((n : ℝ) - 1)

/-- The angle of the i-th arc sample: the start angle plus the sample
parameter times the unwrapped sweep. -/
noncomputable def arcTheta (start_angle raw_end : ℝ) (clockwise : Bool)
    (n i : ℕ) : ℝ :=
  start_angle + linspace01 n i * (arcAngle start_angle raw_end clockwise - start_angle)

/-- The i-th sampled point of _arc_points_xy: the circle of the start
point's radius around the center, swept from the start angle, with z
interpolated linearly. -/
noncomputable def arcPointXY (s e c : V3 ℝ) (cw : Bool) (n i : ℕ) : V3 ℝ :=
  ⟨c.x + Real.sqrt ((s.x - c.x) ^ 2 + (s.y - c.y) ^ 2) *
      Real.cos (arcTheta (atan2 (s.y - c.y) (s.x - c.x))
        (atan2 (e.y - c.y) (e.x - c.x)) cw n i),
   c.y + Real.sqrt ((s.x - c.x) ^ 2 + (s.y - c.y) ^ 2) *
      Real.sin (arcTheta (atan2 (s.y - c.y) (s.x - c.x))
        (atan2 (e.y - c.y) (e.x - c.x)) cw n i),
   s.z + linspace01 n i * (e.z - s.z)⟩

/-- The i-th sampled point of _arc_points_xz (G18: the angle lives in the
x-z plane, y is interpolated linearly). -/
noncomputable def arcPointXZ (s e c : V3 ℝ) (cw : Bool) (n i : ℕ) : V3 ℝ :=
  ⟨c.x + Real.sqrt ((s.x - c.x) ^ 2 + (s.z - c.z) ^ 2) *
      Real.cos (arcTheta (atan2 (s.z - c.z) (s.x - c.x))
        (atan2 (e.z - c.z) (e.x - c.x)) cw n i),
   s.y + linspace01 n i * (e.y - s.y),
   c.z + Real.sqrt ((s.x - c.x) ^ 2 + (s.z - c.z) ^ 2) *
      Real.sin (arcTheta (atan2 (s.z - c.z) (s.x - c.x))
        (atan2 (e.z - c.z) (e.x - c.x)) cw n i)⟩

/-- The i-th sampled point of _arc_points_yz (G19: the angle lives in the
y-z plane, x is interpolated linearly). -/
noncomputable def arcPointYZ (s e c : V3 ℝ) (cw : Bool) (n i : ℕ) : V3 ℝ :=
  ⟨s.x + linspace01 n i * (e.x - s.x),
   c.y + Real.sqrt ((s.y - c.y) ^ 2 + (s.z - c.z) ^ 2) *
      Real.cos (arcTheta (atan2 (s.z - c.z) (s.y - c.y))
        (atan2 (e.z - c.z) (e.y - c.y)) cw n i),
   c.z + Real.sqrt ((s.y - c.y) ^ 2 + (s.z - c.z) ^ 2) *
      Real.sin (arcTheta (atan2 (s.z - c.z) (s.y - c.y))
        (atan2 (e.z - c.z) (e.y - c.y)) cw n i)⟩

noncomputable def _arc_points_xy (s e c : V3 ℝ) (cw : Bool) (n : ℕ) :
    List (V3 ℝ) :=
  (List.range n).map (arcPointXY s e c cw n)

noncomputable def _arc_points_xz (s e c : V3 ℝ) (cw : Bool) (n : ℕ) :
    List (V3 ℝ) :=
  (List.range n).map (arcPointXZ s e c cw n)

noncomputable def _arc_points_yz (s e c : V3 ℝ) (cw : Bool) (n : ℕ) :
    List (V3 ℝ) :=
  (List.range n).map (arcPointYZ s e c cw n)

/-- The segment record consumed by segment_to_points (real-valued, since the
sampler computes with trigonometry).  The plane string G17/G18/G19 is
encoded by its integer code. -/
structure RSeg where
  seg_type : SegType
  start_pos : V3 ℝ
  end_pos : V3 ℝ
  plane : ℤ
  center : Option (V3 ℝ)

/-- The arc branch of segment_to_points: dispatch on the plane; an unknown
plane falls through to the two-point polyline.  The source reads
segment[center] unconditionally for arcs and would raise KeyError on an arc
without a center; the claims concern centered arcs only, so the none branch
(never exercised by them) returns the two endpoints. -/
noncomputable def arcSample (seg : RSeg) (cw : Bool) (n : ℕ) : List (V3 ℝ) :=
  match seg.center with
  | none => [seg.start_pos, seg.end_pos]
  | some c =>
    if seg.plane = 17 then _arc_points_xy seg.start_pos seg.end_pos c cw n
    else if seg.plane = 18 then _arc_points_xz seg.start_pos seg.end_pos c cw n
    else if seg.plane = 19 then _arc_points_yz seg.start_pos seg.end_pos c cw n
    else [seg.start_pos, seg.end_pos]

/-- segment_to_points from core/kinematics.py: rapid and linear segments
sample to exactly their endpoints; arcs are sampled along the circle in
their plane. -/
noncomputable def segment_to_points (seg : RSeg) (num_samples : ℕ) :
    List (V3 ℝ) :=
  match seg.seg_type with
  | SegType.rapid => [seg.start_pos, seg.end_pos]
  | SegType.linear => [seg.start_pos, seg.end_pos]
  | SegType.arc_cw => arcSample seg true num_samples
  | SegType.arc_ccw => arcSample seg false num_samples

/- ============================================================
   Claim C4
   ============================================================ -/

theorem linspace01_zero (n : ℕ) : linspace01 n 0 = 0 := by
  simp [linspace01]

theorem linspace01_last (n : ℕ) (hn : 2 ≤ n) : linspace01 n (n - 1) = 1 := by
  unfold linspace01
  have h2 : (2 : ℝ) ≤ (n : ℝ) := by exact_mod_cast hn
  have hne : (n : ℝ) - 1 ≠ 0 := by linarith
  rw [Nat.cast_sub (by omega), Nat.cast_one]
  exact div_self hne

theorem arcTheta_zero (sa raw : ℝ) (cw : Bool) (n : ℕ) :
    arcTheta sa raw cw n 0 = sa := by
  unfold arcTheta
  rw [linspace01_zero]
  ring

theorem arcTheta_last (sa raw : ℝ) (cw : Bool) (n : ℕ) (hn : 2 ≤ n) :
    arcTheta sa raw cw n (n - 1) = arcAngle sa raw cw := by
  unfold arcTheta
  rw [linspace01_last n hn]
  ring

theorem cos_arcAngle (sa raw : ℝ) (cw : Bool) :
    Real.cos (arcAngle sa raw cw) = Real.cos raw := by
  unfold arcAngle
  cases cw <;> split_ifs <;>
    simp [Real.cos_sub_two_pi, Real.cos_add_two_pi]

theorem sin_arcAngle (sa raw : ℝ) (cw : Bool) :
    Real.sin (arcAngle sa raw cw) = Real.sin raw := by
  unfold arcAngle
  cases cw <;> split_ifs <;>
    simp [Real.sin_sub_two_pi, Real.sin_add_two_pi]

theorem mk_complex_ne_zero (px py : ℝ) (h : px ^ 2 + py ^ 2 ≠ 0) :
    (⟨px, py⟩ : ℂ) ≠ 0 := by
  intro h0
  apply h
  have hre : px = 0 := congrArg Complex.re h0
  have him : py = 0 := congrArg Complex.im h0
  rw [hre, him]
  ring

theorem abs_mk_complex (px py : ℝ) :
    Complex.abs ⟨px, py⟩ = Real.sqrt (px ^ 2 + py ^ 2) := by
  rw [Complex.abs_apply, Complex.normSq_mk]
  ring_nf

theorem sqrt_cos_atan2 (px py : ℝ) (h : px ^ 2 + py ^ 2 ≠ 0) :
    Real.sqrt (px ^ 2 + py ^ 2) * Real.cos (atan2 py px) = px := by
  unfold atan2
  rw [Complex.cos_arg (mk_complex_ne_zero px py h)]
  rw [abs_mk_complex]
  have hpos : 0 < px ^ 2 + py ^ 2 :=
    lt_of_le_of_ne (by positivity) (Ne.symm h)
  have hs : Real.sqrt (px ^ 2 + py ^ 2) ≠ 0 :=
    ne_of_gt (Real.sqrt_pos.mpr hpos)
  show Real.sqrt (px ^ 2 + py ^ 2) * (px / Real.sqrt (px ^ 2 + py ^ 2)) = px
  rw [mul_comm]
  exact div_mul_cancel₀ px hs

theorem sqrt_sin_atan2 (px py : ℝ) (h : px ^ 2 + py ^ 2 ≠ 0) :
    Real.sqrt (px ^ 2 + py ^ 2) * Real.sin (atan2 py px) = py := by
  unfold atan2
  rw [Complex.sin_arg]
  rw [abs_mk_complex]
  have hpos : 0 < px ^ 2 + py ^ 2 :=
    lt_of_le_of_ne (by positivity) (Ne.symm h)
  have hs : Real.sqrt (px ^ 2 + py ^ 2) ≠ 0 :=
    ne_of_gt (Real.sqrt_pos.mpr hpos)
  show Real.sqrt (px ^ 2 + py ^ 2) * (py / Real.sqrt (px ^ 2 + py ^ 2)) = py
  rw [mul_comm]
  exact div_mul_cancel₀ py hs

/-- The planar endpoint identities of the arc sampler: with the start point
off-center and the end point on the same circle, the first sample hits the
start coordinates and the last sample hits the end coordinates, exactly. -/
theorem arc2d_endpoints (sx sy ex ey cx cy : ℝ) (cw : Bool) (n : ℕ)
    (hn : 2 ≤ n)
    (hr : (sx - cx) ^ 2 + (sy - cy) ^ 2 ≠ 0)
    (he : (ex - cx) ^ 2 + (ey - cy) ^ 2 = (sx - cx) ^ 2 + (sy - cy) ^ 2) :
    (cx + Real.sqrt ((sx - cx) ^ 2 + (sy - cy) ^ 2) *
        Real.cos (arcTheta (atan2 (sy - cy) (sx - cx))
          (atan2 (ey - cy) (ex - cx)) cw n 0) = sx) ∧
    (cy + Real.sqrt ((sx - cx) ^ 2 + (sy - cy) ^ 2) *
        Real.sin (arcTheta (atan2 (sy - cy) (sx - cx))
          (atan2 (ey - cy) (ex - cx)) cw n 0) = sy) ∧
    (cx + Real.sqrt ((sx - cx) ^ 2 + (sy - cy) ^ 2) *
        Real.cos (arcTheta (atan2 (sy - cy) (sx - cx))
          (atan2 (ey - cy) (ex - cx)) cw n (n - 1)) = ex) ∧
    (cy + Real.sqrt ((sx - cx) ^ 2 + (sy - cy) ^ 2) *
        Real.sin (arcTheta (atan2 (sy - cy) (sx - cx))
          (atan2 (ey - cy) (ex - cx)) cw n (n - 1)) = ey) := by
  have hre : (ex - cx) ^ 2 + (ey - cy) ^ 2 ≠ 0 := by
    rw [he]
    exact hr
  have hsq : Real.sqrt ((sx - cx) ^ 2 + (sy - cy) ^ 2) =
      Real.sqrt ((ex - cx) ^ 2 + (ey - cy) ^ 2) := by
    rw [he]
  rw [arcTheta_zero, arcTheta_last _ _ _ _ hn, cos_arcAngle, sin_arcAngle]
  refine ⟨?_, ?_, ?_, ?_⟩
  · have := sqrt_cos_atan2 (sx - cx) (sy - cy) hr
    linarith
  · have := sqrt_sin_atan2 (sx - cx) (sy - cy) hr
    linarith
  · rw [hsq]
    have := sqrt_cos_atan2 (ex - cx) (ey - cy) hre
    linarith
  · rw [hsq]
    have := sqrt_sin_atan2 (ex - cx) (ey - cy) hre
    linarith

theorem range_map_head {α : Type} (n : ℕ) (hn : 1 ≤ n) (f : ℕ → α) :
    ((List.range n).map f).head? = some (f 0) := by
  obtain ⟨m, rfl⟩ : ∃ m, n = m + 1 := ⟨n - 1, by omega⟩
  rw [List.range_succ_eq_map]
  simp

theorem range_map_last {α : Type} (n : ℕ) (hn : 1 ≤ n) (f : ℕ → α) :
    ((List.range n).map f).getLast? = some (f (n - 1)) := by
  obtain ⟨m, rfl⟩ : ∃ m, n = m + 1 := ⟨n - 1, by omega⟩
  rw [List.range_succ, List.map_append]
  simp [List.getLast?_concat]

theorem V3.eq_of_components {α : Type} (p q : V3 α)
    (hx : p.x = q.x) (hy : p.y = q.y) (hz : p.z = q.z) : p = q := by
  cases p
  cases q
  simp_all

/-- Componentwise closeness within the 1e-9 tolerance of the claim. -/
def withinEps (p q : V3 ℝ) : Prop :=
  |p.x - q.x| ≤ 1 / 1000000000 ∧ |p.y - q.y| ≤ 1 / 1000000000 ∧
  |p.z - q.z| ≤ 1 / 1000000000

theorem withinEps_of_eq (p q : V3 ℝ) (h : p = q) : withinEps p q := by
  subst h
  refine ⟨?_, ?_, ?_⟩ <;> rw [sub_self] <;> rw [abs_zero] <;> norm_num

/-- The squared in-plane distance of a point from the arc center, for the
plane of the segment (G17: x-y, G18: x-z, G19: y-z). -/
noncomputable def inPlaneDistSq (plane : ℤ) (p c : V3 ℝ) : ℝ :=
  if plane = 17 then (p.x - c.x) ^ 2 + (p.y - c.y) ^ 2
  else if plane = 18 then (p.x - c.x) ^ 2 + (p.z - c.z) ^ 2
  else if plane = 19 then (p.y - c.y) ^ 2 + (p.z - c.z) ^ 2
  else (p.x - c.x) ^ 2 + (p.y - c.y) ^ 2

theorem arcPointsXY_endpoints (s e c : V3 ℝ) (cw : Bool) (n : ℕ) (hn : 2 ≤ n)
    (hr : (s.x - c.x) ^ 2 + (s.y - c.y) ^ 2 ≠ 0)
    (he : (e.x - c.x) ^ 2 + (e.y - c.y) ^ 2 =
      (s.x - c.x) ^ 2 + (s.y - c.y) ^ 2) :
    arcPointXY s e c cw n 0 = s ∧ arcPointXY s e c cw n (n - 1) = e := by
  obtain ⟨h1, h2, h3, h4⟩ :=
    arc2d_endpoints s.x s.y e.x e.y c.x c.y cw n hn hr he
  constructor
  · refine V3.eq_of_components _ _ h1 h2 ?_
    show s.z + linspace01 n 0 * (e.z - s.z) = s.z
    rw [linspace01_zero]
    ring
  · refine V3.eq_of_components _ _ h3 h4 ?_
    show s.z + linspace01 n (n - 1) * (e.z - s.z) = e.z
    rw [linspace01_last n hn]
    ring

theorem arcPointsXZ_endpoints (s e c : V3 ℝ) (cw : Bool) (n : ℕ) (hn : 2 ≤ n)
    (hr : (s.x - c.x) ^ 2 + (s.z - c.z) ^ 2 ≠ 0)
    (he : (e.x - c.x) ^ 2 + (e.z - c.z) ^ 2 =
      (s.x - c.x) ^ 2 + (s.z - c.z) ^ 2) :
    arcPointXZ s e c cw n 0 = s ∧ arcPointXZ s e c cw n (n - 1) = e := by
  obtain ⟨h1, h2, h3, h4⟩ :=
    arc2d_endpoints s.x s.z e.x e.z c.x c.z cw n hn hr he
  constructor
  · refine V3.eq_of_components _ _ h1 ?_ h2
    show s.y + linspace01 n 0 * (e.y - s.y) = s.y
    rw [linspace01_zero]
    ring
  · refine V3.eq_of_components _ _ h3 ?_ h4
    show s.y + linspace01 n (n - 1) * (e.y - s.y) = e.y
    rw [linspace01_last n hn]
    ring

theorem arcPointsYZ_endpoints (s e c : V3 ℝ) (cw : Bool) (n : ℕ) (hn : 2 ≤ n)
    (hr : (s.y - c.y) ^ 2 + (s.z - c.z) ^ 2 ≠ 0)
    (he : (e.y - c.y) ^ 2 + (e.z - c.z) ^ 2 =
      (s.y - c.y) ^ 2 + (s.z - c.z) ^ 2) :
    arcPointYZ s e c cw n 0 = s ∧ arcPointYZ s e c cw n (n - 1) = e := by
  obtain ⟨h1, h2, h3, h4⟩ :=
    arc2d_endpoints s.y s.z e.y e.z c.y c.z cw n hn hr he
  constructor
  · refine V3.eq_of_components _ _ ?_ h1 h2
    show s.x + linspace01 n 0 * (e.x - s.x) = s.x
    rw [linspace01_zero]
    ring
  · refine V3.eq_of_components _ _ ?_ h3 h4
    show s.x + linspace01 n (n - 1) * (e.x - s.x) = e.x
    rw [linspace01_last n hn]
    ring

/-- C4 (amended): for every arc segment, clockwise or counter-clockwise, in
any plane, whose start lies off the center (in-plane) and whose end lies on
the same in-plane circle as the start, the sampled polyline's first point is
within 1e-9 of the segment's start and its last point within 1e-9 of its
end, componentwise (they are in fact exactly equal; the hypothesis on the
end point is forced by the counterexample: the sampler uses the start
point's radius for every sample, so an end point off that circle is not
reached). -/
theorem C4_arc_endpoints (seg : RSeg) (n : ℕ) (c : V3 ℝ) (hn : 2 ≤ n)
    (harc : seg.seg_type = SegType.arc_cw ∨ seg.seg_type = SegType.arc_ccw)
    (hc : seg.center = some c)
    (hr : inPlaneDistSq seg.plane seg.start_pos c ≠ 0)
    (he : inPlaneDistSq seg.plane seg.end_pos c =
      inPlaneDistSq seg.plane seg.start_pos c) :
    ∃ p0 pl, (segment_to_points seg n).head? = some p0 ∧
      (segment_to_points seg n).getLast? = some pl ∧
      withinEps p0 seg.start_pos ∧ withinEps pl seg.end_pos := by
  have h1 : 1 ≤ n := by omega
  obtain ⟨cw, hsamp⟩ : ∃ cw, segment_to_points seg n = arcSample seg cw n := by
    rcases harc with ht | ht
    · exact ⟨true, by unfold segment_to_points; rw [ht]⟩
    · exact ⟨false, by unfold segment_to_points; rw [ht]⟩
  have hdisp : arcSample seg cw n =
      (if seg.plane = 17 then
        _arc_points_xy seg.start_pos seg.end_pos c cw n
      else if seg.plane = 18 then
        _arc_points_xz seg.start_pos seg.end_pos c cw n
      else if seg.plane = 19 then
        _arc_points_yz seg.start_pos seg.end_pos c cw n
      else [seg.start_pos, seg.end_pos]) := by
    unfold arcSample
    rw [hc]
  rw [hsamp, hdisp]
  unfold inPlaneDistSq at hr he
  split_ifs with h17 h18 h19
  · simp only [if_pos h17] at hr he
    obtain ⟨hf0, hfl⟩ := arcPointsXY_endpoints seg.start_pos seg.end_pos c
      cw n hn hr he
    refine ⟨arcPointXY seg.start_pos seg.end_pos c cw n 0,
      arcPointXY seg.start_pos seg.end_pos c cw n (n - 1), ?_, ?_, ?_, ?_⟩
    · exact range_map_head n h1 _
    · exact range_map_last n h1 _
    · exact withinEps_of_eq _ _ hf0
    · exact withinEps_of_eq _ _ hfl
  · simp only [if_neg h17, if_pos h18] at hr he
    obtain ⟨hf0, hfl⟩ := arcPointsXZ_endpoints seg.start_pos seg.end_pos c
      cw n hn hr he
    refine ⟨arcPointXZ seg.start_pos seg.end_pos c cw n 0,
      arcPointXZ seg.start_pos seg.end_pos c cw n (n - 1), ?_, ?_, ?_, ?_⟩
    · exact range_map_head n h1 _
    · exact range_map_last n h1 _
    · exact withinEps_of_eq _ _ hf0
    · exact withinEps_of_eq _ _ hfl
  · simp only [if_neg h17, if_neg h18, if_pos h19] at hr he
    obtain ⟨hf0, hfl⟩ := arcPointsYZ_endpoints seg.start_pos seg.end_pos c
      cw n hn hr he
    refine ⟨arcPointYZ seg.start_pos seg.end_pos c cw n 0,
      arcPointYZ seg.start_pos seg.end_pos c cw n (n - 1), ?_, ?_, ?_, ?_⟩
    · exact range_map_head n h1 _
    · exact range_map_last n h1 _
    · exact withinEps_of_eq _ _ hf0
    · exact withinEps_of_eq _ _ hfl
  · refine ⟨seg.start_pos, seg.end_pos, rfl, by simp, ?_, ?_⟩
    · exact withinEps_of_eq _ _ rfl
    · exact withinEps_of_eq _ _ rfl

/-- The counterexample arc: clockwise in the XY plane from (1,0,0) around
center (0,0,0) to the end point (3,0,0), which is not on the start point's
circle. -/
noncomputable def cArcSeg : RSeg :=
  ⟨SegType.arc_cw, ⟨1, 0, 0⟩, ⟨3, 0, 0⟩, 17, some ⟨0, 0, 0⟩⟩

noncomputable def cArcLast : V3 ℝ :=
  arcPointXY ⟨1, 0, 0⟩ ⟨3, 0, 0⟩ ⟨0, 0, 0⟩ true 32 31

theorem atan2_zero_one : atan2 (0 : ℝ) 1 = 0 := by
  unfold atan2
  have h1 : (⟨1, 0⟩ : ℂ) = 1 := by
    apply Complex.ext <;> simp
  rw [h1, Complex.arg_one]

theorem atan2_zero_three : atan2 (0 : ℝ) 3 = 0 := by
  unfold atan2
  have h3 : (⟨3, 0⟩ : ℂ) = ((3 : ℝ) : ℂ) := by
    apply Complex.ext <;> simp
  rw [h3]
  exact Complex.arg_ofReal_of_nonneg (by norm_num)

theorem arcTheta_counterexample :
    arcTheta (atan2 (0 : ℝ) 1) (atan2 (0 : ℝ) 3) true 32 31 =
      -(2 * Real.pi) := by
  rw [atan2_zero_one, atan2_zero_three]
  unfold arcTheta arcAngle linspace01
  rw [if_pos (le_refl (0 : ℝ))]
  norm_num

theorem cArcLast_x : cArcLast.x = 1 := by
  have hx : cArcLast.x = 0 + Real.sqrt (((1 : ℝ) - 0) ^ 2 + ((0 : ℝ) - 0) ^ 2) *
      Real.cos (arcTheta (atan2 ((0 : ℝ) - 0) ((1 : ℝ) - 0))
        (atan2 ((0 : ℝ) - 0) ((3 : ℝ) - 0)) true 32 31) := rfl
  rw [hx]
  have h0 : ((0 : ℝ) - 0) = 0 := by norm_num
  have h1 : ((1 : ℝ) - 0) = 1 := by norm_num
  have h3 : ((3 : ℝ) - 0) = 3 := by norm_num
  rw [h0, h1, h3]
  rw [arcTheta_counterexample, Real.cos_neg, Real.cos_two_pi]
  rw [show ((1 : ℝ) ^ 2 + (0 : ℝ) ^ 2) = 1 by norm_num]
  rw [Real.sqrt_one]
  norm_num

/-- C4 (counterexample to the claim as stated): the arc above is a perfectly
well-formed segment record (a clockwise XY arc with a resolved center), yet
the last sampled point has x = 1 while the segment's end has x = 3: the
sampler sweeps the circle of the start point's radius, so an end point at a
different distance from the center is missed by far more than 1e-9. -/
theorem C4_counterexample :
    (segment_to_points cArcSeg 32).getLast? = some cArcLast ∧
    1 / 1000000000 < |cArcLast.x - cArcSeg.end_pos.x| := by
  constructor
  · have hside : segment_to_points cArcSeg 32 =
        (List.range 32).map
          (arcPointXY ⟨1, 0, 0⟩ ⟨3, 0, 0⟩ ⟨0, 0, 0⟩ true 32) := rfl
    rw [hside]
    rw [range_map_last 32 (by norm_num) _]
    rfl
  · rw [cArcLast_x]
    have he3 : cArcSeg.end_pos.x = 3 := rfl
    rw [he3]
    have hd : (1 : ℝ) - 3 = -2 := by norm_num
    rw [hd, abs_neg]
    rw [abs_of_pos (by norm_num : (0 : ℝ) < 2)]
    norm_num

/-- The witness arc: a clockwise quarter-type arc from (1,0,0) to (0,1,0)
around the origin in the XY plane, both on the unit circle. -/
noncomputable def wArcSeg : RSeg :=
  ⟨SegType.arc_cw, ⟨1, 0, 0⟩, ⟨0, 1, 0⟩, 17, some ⟨0, 0, 0⟩⟩

/-- Witness for C4: the amended endpoint-fidelity theorem applied to the
witness arc at the default 32 samples. -/
theorem C4_arc_endpoints_witness :
    ∃ p0 pl, (segment_to_points wArcSeg 32).head? = some p0 ∧
      (segment_to_points wArcSeg 32).getLast? = some pl ∧
      withinEps p0 wArcSeg.start_pos ∧ withinEps pl wArcSeg.end_pos :=
  C4_arc_endpoints wArcSeg 32 ⟨0, 0, 0⟩ (by norm_num) (Or.inl rfl) rfl
    (by norm_num [inPlaneDistSq, wArcSeg])
    (by norm_num [inPlaneDistSq, wArcSeg])
